import Mathlib

/-!
Verification development for the reki-bets repository.

The repository is a family of small HTTP services that proxy OpenAI-style
chat-completion requests to a hosted LLM, detect tool calls in the model's
streamed answer, execute them against sports-data REST APIs and stream a
final answer back.  This file gives a shallow embedding of the pieces the
claims are about:

* the streamed tool-call reconstruction of `src/api.py` /
  `src/agent1/api.py` (`full_tool_calls` built from delta fragments);
* the two `stream_generator` coroutines of `src/api.py` (lines 221-286) and
  `src/agent1/api.py` (lines 344-442), embedded as pure functions from an
  environment (the chunks of the two upstream model responses and a tool
  executor) to the ordered trace of observable actions (SSE emissions,
  upstream model calls, tool executions) plus the message list handed to the
  second model call;
* the message-list preparation of the endpoint (system prompt plus the last
  10 request messages, `src/api.py` lines 215-219);
* the static tool registries `AVAILABLE_TOOLS` and schema name lists of both
  api files;
* the `cachetools` `TTLCache`/`cached` wrapper used by `src/nba.py` and
  `src/odds.py` (lookup with per-entry expiry, insertion-order eviction when
  `maxsize` is reached);
* the tool wrappers' error handling (`src/nba.py`, `src/nfl.py`);
* the scheduler loop of `src/agent2/scheduler.py`.

Machine strings are Lean `String`s, Python `None`-able values are `Option`s,
Python truthiness of strings/lists is modelled explicitly, raised exceptions
are `Except`/`Option` error values.
-/

namespace RekiBets

/-- One streamed tool-call delta fragment: an element of
`chunk.choices[0].delta.tool_calls`.  `id` models `tc.id`, `fname` models
`tc.function.name` and `fargs` models `tc.function.arguments` (with `none`
for Python `None`). -/
structure Frag where
  id : Option String
  fname : Option String
  fargs : Option String
deriving DecidableEq

/-- Python truthiness of `tc.id`: not `None` and not the empty string. -/
def Frag.idTruthy (f : Frag) : Bool :=
  match f.id with
  | some s => s ≠ ""
  | none => false

/-- Python truthiness of `tc.function and tc.function.arguments`. -/
def Frag.argsTruthy (f : Frag) : Bool :=
  match f.fargs with
  | some s => s ≠ ""
  | none => false

/-- The argument text a fragment contributes (empty when absent). -/
def Frag.argStr (f : Frag) : String := f.fargs.getD ""

/-- A reconstructed entry of `full_tool_calls`:
`{"id": ..., "type": "function", "function": {"name": ..., "arguments": ...}}`. -/
structure FullTC where
  id : String
  name : Option String
  args : String
deriving DecidableEq

/-- One iteration of the reconstruction loop of `src/api.py` lines 245-249
(identical in `src/agent1/api.py` lines 374-378):

    for tc in tool_calls:
        if tc.id:
            full_tool_calls.append({"id": tc.id, "type": "function",
                "function": {"name": tc.function.name, "arguments": ""}})
        if tc.function and tc.function.arguments:
            full_tool_calls[-1]["function"]["arguments"] += tc.function.arguments

`none` models the `IndexError` raised by `full_tool_calls[-1]` on an empty
list; once raised it aborts the loop. -/
def reconStep (acc : Option (List FullTC)) (f : Frag) : Option (List FullTC) :=
  match acc with
  | none => none
  | some l =>
    let l' := if f.idTruthy then l ++ [⟨f.id.getD "", f.fname, ""⟩] else l
    if f.argsTruthy then
      match l'.getLast? with
      | none => none
      | some last => some (l'.dropLast ++ [⟨last.id, last.name, last.args ++ f.argStr⟩])
    else some l'

/-- The whole reconstruction: `full_tool_calls` built from the concatenated
stream of delta fragments, starting from the empty list. -/
def reconstruct (frags : List Frag) : Option (List FullTC) :=
  frags.foldl reconStep (some [])

/-- Helper for the specification-side segmentation, processing the fragment
list from the right: returns the segments so far and the run of non-id
fragments that precedes the first segment. -/
def splitSegsAux : List Frag → List (Frag × List Frag) × List Frag
  | [] => ([], [])
  | g :: gs =>
    if g.idTruthy
    then ((g, (splitSegsAux gs).2) :: (splitSegsAux gs).1, [])
    else ((splitSegsAux gs).1, g :: (splitSegsAux gs).2)

/-- Specification-side segmentation: each id-bearing fragment together with
the run of non-id fragments that follows it (up to the next id-bearing
fragment). -/
def splitSegs (l : List Frag) : List (Frag × List Frag) := (splitSegsAux l).1

lemma splitSegsAux_eq : ∀ l : List Frag,
    (splitSegsAux l).2 = l.takeWhile (fun g => !g.idTruthy) ∧
    (splitSegsAux l).1 = splitSegs (l.dropWhile (fun g => !g.idTruthy)) := by
  intro l
  induction l with
  | nil => exact ⟨rfl, rfl⟩
  | cons g gs ih =>
    cases hid : g.idTruthy with
    | true =>
      constructor
      · simp [splitSegsAux, hid, List.takeWhile, List.takeWhile_cons]
      · have hdw : (g :: gs).dropWhile (fun g => !g.idTruthy) = g :: gs := by
          simp [List.dropWhile, hid]
        rw [hdw]
        rfl
    | false =>
      constructor
      · have htw : (g :: gs).takeWhile (fun g => !g.idTruthy)
            = g :: gs.takeWhile (fun g => !g.idTruthy) := by
          simp [List.takeWhile, hid]
        rw [htw, ← ih.1]
        simp [splitSegsAux, hid]
      · have hdw : (g :: gs).dropWhile (fun g => !g.idTruthy)
            = gs.dropWhile (fun g => !g.idTruthy) := by
          simp [List.dropWhile, hid]
        rw [hdw, ← ih.2]
        simp [splitSegsAux, hid]

lemma splitSegs_cons_id {g : Frag} (gs : List Frag) (hid : g.idTruthy = true) :
    splitSegs (g :: gs) =
      (g, gs.takeWhile (fun x => !x.idTruthy)) ::
        splitSegs (gs.dropWhile (fun x => !x.idTruthy)) := by
  unfold splitSegs
  rw [show (splitSegsAux (g :: gs)).1
        = (g, (splitSegsAux gs).2) :: (splitSegsAux gs).1 by
        simp [splitSegsAux, hid]]
  rw [(splitSegsAux_eq gs).1, (splitSegsAux_eq gs).2]
  rfl

/-- Specification-side description of one reconstructed call: the id and name
carried by its id-bearing fragment, and the concatenation in stream order of
the argument fragments of its segment. -/
def segTC (f : Frag) (seg : List Frag) : FullTC :=
  ⟨f.id.getD "", f.fname, f.argStr ++ String.join (seg.map Frag.argStr)⟩

/-- Specification-side reconstruction: one call per id-bearing fragment. -/
def reconSpec (frags : List Frag) : List FullTC :=
  (splitSegs frags).map fun p => segTC p.1 p.2

/-- Appending further argument text to a reconstructed call. -/
def extendTC (tc : FullTC) (s : String) : FullTC := ⟨tc.id, tc.name, tc.args ++ s⟩

lemma str_join_cons (a : String) (l : List String) :
    String.join (a :: l) = a ++ String.join l := by
  simp only [String.join_eq, List.map_cons, List.flatten_cons]
  cases a
  rfl

lemma argStr_of_not_truthy {f : Frag} (h : f.argsTruthy = false) : f.argStr = "" := by
  unfold Frag.argsTruthy at h
  unfold Frag.argStr
  cases hf : f.fargs with
  | none => rfl
  | some s =>
    rw [hf] at h
    simp only [decide_not, Bool.not_eq_false', decide_eq_true_eq] at h
    simp [h]

lemma extendTC_empty (tc : FullTC) : extendTC tc "" = tc := by
  cases tc
  simp [extendTC, String.append_empty]

lemma extendTC_extendTC (tc : FullTC) (s t : String) :
    extendTC (extendTC tc s) t = extendTC tc (s ++ t) := by
  cases tc
  simp [extendTC, String.append_assoc]

/-- `reconStep` on a non-empty accumulator with an id-bearing fragment pushes
a fresh call and appends the fragment's own argument text to it. -/
lemma reconStep_concat_id (done : List FullTC) (cur : FullTC) {f : Frag}
    (hid : f.idTruthy = true) :
    reconStep (some (done ++ [cur])) f =
      some ((done ++ [cur]) ++ [extendTC ⟨f.id.getD "", f.fname, ""⟩ f.argStr]) := by
  unfold reconStep
  rw [hid]
  simp only [reduceIte]
  cases harg : f.argsTruthy with
  | true =>
    rw [show done ++ [cur] ++ [(⟨f.id.getD "", f.fname, ""⟩ : FullTC)]
          = (done ++ [cur]) ++ [(⟨f.id.getD "", f.fname, ""⟩ : FullTC)] from rfl,
        List.getLast?_concat, List.dropLast_concat]
    simp [extendTC]
  | false =>
    simp only [Bool.false_eq_true, reduceIte]
    rw [argStr_of_not_truthy harg, extendTC_empty]

/-- `reconStep` on a non-empty accumulator with a non-id fragment appends the
fragment's argument text to the last call. -/
lemma reconStep_concat_noid (done : List FullTC) (cur : FullTC) {f : Frag}
    (hid : f.idTruthy = false) :
    reconStep (some (done ++ [cur])) f = some (done ++ [extendTC cur f.argStr]) := by
  unfold reconStep
  rw [hid]
  simp only [Bool.false_eq_true, reduceIte]
  cases harg : f.argsTruthy with
  | true =>
    rw [List.getLast?_concat, List.dropLast_concat]
    simp [extendTC]
  | false =>
    simp only [Bool.false_eq_true, reduceIte]
    rw [argStr_of_not_truthy harg, extendTC_empty]

/-- Main induction for the reconstruction: starting from a non-empty
accumulator, folding the remaining fragments extends the last call with the
argument text of the leading non-id fragments and then processes the
remaining segments as `reconSpec` describes. -/
lemma recon_go (frags : List Frag) : ∀ (done : List FullTC) (cur : FullTC),
    List.foldl reconStep (some (done ++ [cur])) frags =
      some (done ++
        extendTC cur (String.join ((frags.takeWhile (fun g => !g.idTruthy)).map Frag.argStr)) ::
        reconSpec (frags.dropWhile (fun g => !g.idTruthy))) := by
  induction frags with
  | nil =>
    intro done cur
    simp only [List.foldl_nil, List.takeWhile_nil, List.dropWhile_nil, List.map_nil]
    rw [show String.join [] = "" from rfl, extendTC_empty]
    simp [reconSpec, splitSegs, splitSegsAux]
  | cons g gs ih =>
    intro done cur
    rw [List.foldl_cons]
    cases hid : g.idTruthy with
    | true =>
      rw [reconStep_concat_id done cur hid]
      rw [ih (done ++ [cur]) (extendTC ⟨g.id.getD "", g.fname, ""⟩ g.argStr)]
      have htw : (g :: gs).takeWhile (fun g => !g.idTruthy) = [] := by
        simp [List.takeWhile, hid]
      have hdw : (g :: gs).dropWhile (fun g => !g.idTruthy) = g :: gs := by
        simp [List.dropWhile, hid]
      rw [htw, hdw]
      simp only [List.map_nil, extendTC_extendTC]
      rw [show String.join [] = "" from rfl, extendTC_empty]
      have hspec : reconSpec (g :: gs) =
          segTC g (gs.takeWhile (fun g => !g.idTruthy)) ::
            reconSpec (gs.dropWhile (fun g => !g.idTruthy)) := by
        unfold reconSpec
        rw [splitSegs_cons_id _ hid]
        simp
      rw [hspec]
      have hseg : extendTC (⟨g.id.getD "", g.fname, ""⟩ : FullTC)
            (g.argStr ++ String.join ((gs.takeWhile (fun g => !g.idTruthy)).map Frag.argStr))
          = segTC g (gs.takeWhile (fun g => !g.idTruthy)) := by
        simp [extendTC, segTC, String.empty_append]
      rw [hseg]
      simp
    | false =>
      rw [reconStep_concat_noid done cur hid]
      rw [ih done (extendTC cur g.argStr)]
      have htw : (g :: gs).takeWhile (fun g => !g.idTruthy)
          = g :: gs.takeWhile (fun g => !g.idTruthy) := by
        simp [List.takeWhile, hid]
      have hdw : (g :: gs).dropWhile (fun g => !g.idTruthy)
          = gs.dropWhile (fun g => !g.idTruthy) := by
        simp [List.dropWhile, hid]
      rw [htw, hdw, List.map_cons, str_join_cons, extendTC_extendTC]

lemma reconStep_nil_id {f : Frag} (hid : f.idTruthy = true) :
    reconStep (some []) f = some [extendTC ⟨f.id.getD "", f.fname, ""⟩ f.argStr] := by
  unfold reconStep
  rw [hid]
  simp only [reduceIte, List.nil_append]
  cases harg : f.argsTruthy with
  | true =>
    rw [show ([(⟨f.id.getD "", f.fname, ""⟩ : FullTC)])
          = [] ++ [(⟨f.id.getD "", f.fname, ""⟩ : FullTC)] from rfl,
        List.getLast?_concat, List.dropLast_concat]
    simp [extendTC]
  | false =>
    simp only [Bool.false_eq_true, reduceIte]
    rw [argStr_of_not_truthy harg, extendTC_empty]

/-- When the first fragment carries a truthy id, the reconstruction loop of
`src/api.py` lines 245-249 never fails (no `IndexError` from
`full_tool_calls[-1]`) and computes exactly the segment-wise description
`reconSpec`. -/
lemma reconstruct_eq_spec (f : Frag) (rest : List Frag) (hid : f.idTruthy = true) :
    reconstruct (f :: rest) = some (reconSpec (f :: rest)) := by
  unfold reconstruct
  rw [List.foldl_cons, reconStep_nil_id hid,
      show [extendTC ⟨f.id.getD "", f.fname, ""⟩ f.argStr]
        = [] ++ [extendTC ⟨f.id.getD "", f.fname, ""⟩ f.argStr] from rfl,
      recon_go rest [] (extendTC ⟨f.id.getD "", f.fname, ""⟩ f.argStr)]
  have hspec : reconSpec (f :: rest) =
      segTC f (rest.takeWhile (fun g => !g.idTruthy)) ::
        reconSpec (rest.dropWhile (fun g => !g.idTruthy)) := by
    unfold reconSpec
    rw [splitSegs_cons_id _ hid]
    simp
  rw [hspec]
  have hseg : extendTC (extendTC ⟨f.id.getD "", f.fname, ""⟩ f.argStr)
        (String.join ((rest.takeWhile (fun g => !g.idTruthy)).map Frag.argStr))
      = segTC f (rest.takeWhile (fun g => !g.idTruthy)) := by
    rw [extendTC_extendTC]
    simp [extendTC, segTC, String.empty_append]
  rw [hseg]
  simp

/-! ## The chat-completions stream generators

`src/api.py` lines 221-286 and `src/agent1/api.py` lines 344-442.  A chunk of
an upstream streaming response is observed through its serialized form
(`chunk.model_dump_json()`), its delta's tool-call fragments and its delta's
content. -/

/-- One chunk of an upstream streamed response.  `json` is the string
produced by `chunk.model_dump_json()`; `frags` is
`chunk.choices[0].delta.tool_calls` (empty when `choices` is empty, the delta
is `None` or its `tool_calls` is `None`/empty, all of which make the guard
`chunk.choices and chunk.choices[0].delta and chunk.choices[0].delta.tool_calls`
falsy); `content` is `chunk.choices[0].delta.content`. -/
structure Chunk where
  json : String
  frags : List Frag
  content : Option String
deriving DecidableEq

/-- Python truthiness of `chunk.choices and chunk.choices[0].delta and
chunk.choices[0].delta.content`. -/
def Chunk.contentTruthy (c : Chunk) : Bool :=
  match c.content with
  | some s => s ≠ ""
  | none => false

/-- A message dict of the conversation (`role`, `content`, `name`,
`tool_call_id`, `tool_calls` keys; absent keys are `none`). -/
structure Msg where
  role : String
  content : Option String
  name : Option String
  tool_call_id : Option String
  tool_calls : Option (List FullTC)
deriving DecidableEq

/-- Observable actions of a stream generator, in order:
`emit p` is `yield "data: {p}\n\n"`, `modelCall k` is the `k`-th
`client.chat.completions.create(...)` round-trip to the upstream model, and
`execTool n` is the invocation `function_to_call(**function_args)` of the
registered tool named `n`. -/
inductive Ev where
  | emit (payload : String)
  | modelCall (k : Nat)
  | execTool (name : String)
deriving DecidableEq

/-- The environment a single request's stream generator runs in: the prepared
message list (system prompt plus trimmed history), the chunks of the two
upstream responses, and the tool executor.  `exec n a` models
`json.dumps(AVAILABLE_TOOLS[n](**json.loads(a)))`; `Except.error e` models an
exception with message `e` raised by `json.loads` or by the tool itself. -/
structure Env where
  messages : List Msg
  initialChunks : List Chunk
  finalChunks : List Chunk
  exec : String → String → Except String String

/-- The keys of `AVAILABLE_TOOLS` in `src/api.py` lines 34-42, in source
order. -/
def AVAILABLE_TOOLS : List String :=
  ["get_current_week_schedule", "get_game_statistics", "get_game_roster",
   "get_daily_schedule", "get_daily_injuries", "get_game_summary",
   "get_daily_schedule_odds"]

/-- The `function.name` fields of `tools_schema` in `src/api.py` lines
44-179, in source order. -/
def tools_schema_names : List String :=
  ["get_daily_schedule_odds", "get_current_week_schedule",
   "get_game_statistics", "get_game_roster", "get_daily_schedule",
   "get_daily_injuries", "get_game_summary"]

/-- The keys of `AVAILABLE_TOOLS` in `src/agent1/api.py` lines 47-61, in
source order (the odds entries are commented out in the source). -/
def AVAILABLE_TOOLS_agent1 : List String :=
  ["get_nfl_current_week_schedule", "find_nfl_game_by_teams_and_date",
   "get_nfl_game_statistics", "get_nfl_game_roster",
   "get_nfl_team_season_stats", "get_nba_daily_schedule",
   "get_nba_daily_injuries", "get_nba_game_summary",
   "get_nba_seasonal_stats", "get_nba_teams_list", "clear_caches"]

/-- The `function.name` fields of `tools_schema` in `src/agent1/api.py` lines
63-276, in source order. -/
def tools_schema_names_agent1 : List String :=
  ["find_nfl_game_by_teams_and_date", "get_nfl_current_week_schedule",
   "get_nfl_game_statistics", "get_nfl_game_roster",
   "get_nfl_team_season_stats", "get_nba_daily_schedule",
   "get_nba_daily_injuries", "get_nba_game_summary", "clear_caches",
   "get_nba_seasonal_stats", "get_nba_teams_list"]

/-- The assistant message recording the reconstructed tool calls
(`src/api.py` lines 252-256). -/
def assistantMsg (ftcs : List FullTC) : Msg :=
  ⟨"assistant", none, none, none, some ftcs⟩

/-- The tool-role result message appended after executing one call
(`src/api.py` lines 267-272). -/
def toolMsg (tc : FullTC) (n : String) (resp : String) : Msg :=
  ⟨"tool", some resp, some n, some tc.id, none⟩

/-- The concatenation `tool_calls.extend(chunk.choices[0].delta.tool_calls)`
over all chunks of the initial stream. -/
def allFrags (cs : List Chunk) : List Frag :=
  cs.flatMap fun c => c.frags

/-- The tool-execution loop of `src/api.py` lines 259-272: for each
reconstructed call look up its name in the registry (`continue` when absent),
execute it and append the tool-role result message.  There is no inner
`try`, so an executor error aborts the loop and escapes to the generator's
outer `except` (returned as `some e`). -/
def execToolsApi (reg : List String) (ex : String → String → Except String String) :
    List FullTC → List Msg → List Ev × List Msg × Option String
  | [], msgs => ([], msgs, none)
  | tc :: rest, msgs =>
    match tc.name with
    | none => execToolsApi reg ex rest msgs
    | some n =>
      if n ∈ reg then
        match ex n tc.args with
        | .error e => ([Ev.execTool n], msgs, some e)
        | .ok resp =>
          let r := execToolsApi reg ex rest (msgs ++ [toolMsg tc n resp])
          (Ev.execTool n :: r.1, r.2)
      else execToolsApi reg ex rest msgs

/-- The serialization `json.dumps({"status": "error", "error": str(e)})`
produced by `src/agent1/api.py` line 416 when a tool raises. -/
def errDump (e : String) : String :=
  "\x7b\"status\": \"error\", \"error\": \"" ++ e ++ "\"\x7d"

/-- The `function_response` computed inside the `try` of
`src/agent1/api.py` lines 388-416: the tool's serialized result, or the
serialized error dict when it raises. -/
def agent1Resp (ex : String → String → Except String String) (n a : String) : String :=
  match ex n a with
  | .ok r => r
  | .error e => errDump e

/-- The tool-execution loop of `src/agent1/api.py` lines 383-423: identical
lookup and skip, but the execution is wrapped in `try/except`, so a raising
tool yields an error dict and the result message is appended regardless. -/
def execToolsAgent1 (reg : List String) (ex : String → String → Except String String) :
    List FullTC → List Msg → List Ev × List Msg
  | [], msgs => ([], msgs)
  | tc :: rest, msgs =>
    match tc.name with
    | none => execToolsAgent1 reg ex rest msgs
    | some n =>
      if n ∈ reg then
        let r := execToolsAgent1 reg ex rest (msgs ++ [toolMsg tc n (agent1Resp ex n tc.args)])
        (Ev.execTool n :: r.1, r.2)
      else execToolsAgent1 reg ex rest msgs

/-- Result of a generator body (the code inside the outer `try`): the events
it performed, the message list passed to the second model call when one was
made, and the message of an exception that escaped. -/
structure BodyOut where
  evs : List Ev
  msgs2 : Option (List Msg)
  exc : Option String
deriving Inhabited

/-- The exception message of `full_tool_calls[-1]` on an empty list. -/
def indexErrorMsg : String := "IndexError: list index out of range"

/-- The body of `stream_generator` in `src/api.py` lines 224-279: stream
every chunk of the initial response while collecting tool-call fragments;
when there are any, reconstruct them, append the assistant message, execute
the registered calls appending their result messages, and make the second
model call, streaming its chunks. -/
def bodyApi (env : Env) : BodyOut :=
  if allFrags env.initialChunks = [] then
    ⟨Ev.modelCall 1 :: (env.initialChunks.map fun c => Ev.emit c.json), none, none⟩
  else
    match reconstruct (allFrags env.initialChunks) with
    | none =>
      ⟨Ev.modelCall 1 :: (env.initialChunks.map fun c => Ev.emit c.json), none,
       some indexErrorMsg⟩
    | some ftcs =>
      match (execToolsApi AVAILABLE_TOOLS env.exec ftcs
               (env.messages ++ [assistantMsg ftcs])).2.2 with
      | some e =>
        ⟨(Ev.modelCall 1 :: (env.initialChunks.map fun c => Ev.emit c.json)) ++
           (execToolsApi AVAILABLE_TOOLS env.exec ftcs
             (env.messages ++ [assistantMsg ftcs])).1,
         none, some e⟩
      | none =>
        ⟨(Ev.modelCall 1 :: (env.initialChunks.map fun c => Ev.emit c.json)) ++
           (execToolsApi AVAILABLE_TOOLS env.exec ftcs
             (env.messages ++ [assistantMsg ftcs])).1 ++
           [Ev.modelCall 2] ++ (env.finalChunks.map fun c => Ev.emit c.json),
         some (execToolsApi AVAILABLE_TOOLS env.exec ftcs
                 (env.messages ++ [assistantMsg ftcs])).2.1,
         none⟩

/-- The body of `stream_generator` in `src/agent1/api.py` lines 347-435: the
initial stream is consumed internally without yielding; with tool calls
present only the final response is streamed, otherwise the collected
content-bearing initial chunks are re-emitted. -/
def bodyAgent1 (env : Env) : BodyOut :=
  if allFrags env.initialChunks = [] then
    ⟨Ev.modelCall 1 ::
       ((env.initialChunks.filter fun c => c.contentTruthy).map fun c => Ev.emit c.json),
     none, none⟩
  else
    match reconstruct (allFrags env.initialChunks) with
    | none => ⟨[Ev.modelCall 1], none, some indexErrorMsg⟩
    | some ftcs =>
      ⟨Ev.modelCall 1 ::
         (execToolsAgent1 AVAILABLE_TOOLS_agent1 env.exec ftcs
           (env.messages ++ [assistantMsg ftcs])).1 ++
         [Ev.modelCall 2] ++ (env.finalChunks.map fun c => Ev.emit c.json),
       some (execToolsAgent1 AVAILABLE_TOOLS_agent1 env.exec ftcs
               (env.messages ++ [assistantMsg ftcs])).2,
       none⟩

/-- `json.dumps({"error": str(e)})` emitted by the generators' `except`
branch. -/
def errPayload (e : String) : String := "\x7b\"error\": \"" ++ e ++ "\"\x7d"

/-- Wrap a generator body in the `yield "data: [STREAM_STARTED]"` prologue,
the `except` branch that emits the error payload, and the `finally` branch
that emits `[DONE]` (identical in both files). -/
def runGenWrap (b : BodyOut) : List Ev :=
  Ev.emit "[STREAM_STARTED]" :: b.evs ++
    (match b.exc with
     | some e => [Ev.emit (errPayload e)]
     | none => []) ++
    [Ev.emit "[DONE]"]

/-- The full observable trace of `stream_generator` in `src/api.py`. -/
def runGenApi (env : Env) : List Ev := runGenWrap (bodyApi env)

/-- The full observable trace of `stream_generator` in `src/agent1/api.py`. -/
def runGenAgent1 (env : Env) : List Ev := runGenWrap (bodyAgent1 env)

/-- The payloads of the `data: <payload>` SSE lines of a trace, in order. -/
def payloads (t : List Ev) : List String :=
  t.filterMap fun e =>
    match e with
    | .emit s => some s
    | _ => none

/-- Recognizer for upstream model calls. -/
def isMC : Ev → Bool
  | .modelCall _ => true
  | _ => false

/-- Recognizer for tool executions. -/
def isExec : Ev → Bool
  | .execTool _ => true
  | _ => false

/-- Number of upstream model round-trips in a trace. -/
def modelCallCount (t : List Ev) : Nat := (t.filter isMC).length

/-- `true` iff no tool execution happens after the second model call. -/
def noExecAfter2 : List Ev → Bool
  | [] => true
  | e :: rest =>
    if e = Ev.modelCall 2 then rest.all fun x => !isExec x else noExecAfter2 rest

lemma payloads_append (a b : List Ev) : payloads (a ++ b) = payloads a ++ payloads b :=
  List.filterMap_append a b _

@[simp] lemma payloads_nil : payloads [] = [] := rfl

@[simp] lemma payloads_emit_cons (s : String) (t : List Ev) :
    payloads (Ev.emit s :: t) = s :: payloads t := rfl

@[simp] lemma payloads_mc_cons (k : Nat) (t : List Ev) :
    payloads (Ev.modelCall k :: t) = payloads t := rfl

@[simp] lemma payloads_exec_cons (n : String) (t : List Ev) :
    payloads (Ev.execTool n :: t) = payloads t := rfl

lemma payloads_map_emit (cs : List Chunk) :
    payloads (cs.map fun c => Ev.emit c.json) = cs.map Chunk.json := by
  induction cs with
  | nil => rfl
  | cons c cs ih => simp [ih]

lemma payloads_map_execTool (ns : List String) :
    payloads (ns.map Ev.execTool) = [] := by
  induction ns with
  | nil => rfl
  | cons n ns ih => simp [ih]

@[simp] lemma mcCount_nil : modelCallCount [] = 0 := rfl

lemma mcCount_append (a b : List Ev) :
    modelCallCount (a ++ b) = modelCallCount a + modelCallCount b := by
  simp [modelCallCount, List.filter_append]

@[simp] lemma mcCount_emit_cons (s : String) (t : List Ev) :
    modelCallCount (Ev.emit s :: t) = modelCallCount t := rfl

@[simp] lemma mcCount_exec_cons (n : String) (t : List Ev) :
    modelCallCount (Ev.execTool n :: t) = modelCallCount t := rfl

@[simp] lemma mcCount_mc_cons (k : Nat) (t : List Ev) :
    modelCallCount (Ev.modelCall k :: t) = modelCallCount t + 1 := by
  simp [modelCallCount, List.filter_cons, isMC, Nat.add_comm]

lemma mcCount_map_emit (cs : List Chunk) :
    modelCallCount (cs.map fun c => Ev.emit c.json) = 0 := by
  induction cs with
  | nil => rfl
  | cons c cs ih => simp [ih]

lemma mcCount_map_execTool (ns : List String) :
    modelCallCount (ns.map Ev.execTool) = 0 := by
  induction ns with
  | nil => rfl
  | cons n ns ih => simp [ih]

/-- The registered names among the reconstructed calls, in execution order:
the calls whose `function.name` is a key of the registry. -/
def regNames (reg : List String) (ftcs : List FullTC) : List String :=
  ftcs.filterMap fun tc => tc.name.bind fun n => if n ∈ reg then some n else none

/-- Value of a successful execution (dummy on error; used only under a
success hypothesis). -/
def okD : Except String String → String
  | .ok r => r
  | .error _ => ""

/-- The tool-role result messages appended by `src/api.py`'s execution loop,
one per registered call, in order. -/
def regMsgs (reg : List String) (ex : String → String → Except String String)
    (ftcs : List FullTC) : List Msg :=
  ftcs.filterMap fun tc =>
    tc.name.bind fun n =>
      if n ∈ reg then some (toolMsg tc n (okD (ex n tc.args))) else none

lemma execToolsApi_nil (reg : List String) (ex : String → String → Except String String)
    (msgs : List Msg) : execToolsApi reg ex [] msgs = ([], msgs, none) := by
  rw [execToolsApi]

lemma execToolsApi_cons_none {tc : FullTC} (reg : List String)
    (ex : String → String → Except String String) (rest : List FullTC) (msgs : List Msg)
    (hname : tc.name = none) :
    execToolsApi reg ex (tc :: rest) msgs = execToolsApi reg ex rest msgs := by
  rw [execToolsApi, hname]

lemma execToolsApi_cons_skip {tc : FullTC} {n : String} (reg : List String)
    (ex : String → String → Except String String) (rest : List FullTC) (msgs : List Msg)
    (hname : tc.name = some n) (hreg : n ∉ reg) :
    execToolsApi reg ex (tc :: rest) msgs = execToolsApi reg ex rest msgs := by
  rw [execToolsApi, hname]
  simp only [if_neg hreg]

lemma execToolsApi_cons_err {tc : FullTC} {n e : String} (reg : List String)
    (ex : String → String → Except String String) (rest : List FullTC) (msgs : List Msg)
    (hname : tc.name = some n) (hreg : n ∈ reg) (hex : ex n tc.args = .error e) :
    execToolsApi reg ex (tc :: rest) msgs = ([Ev.execTool n], msgs, some e) := by
  rw [execToolsApi, hname]
  simp only [if_pos hreg, hex]

lemma execToolsApi_cons_ok {tc : FullTC} {n r : String} (reg : List String)
    (ex : String → String → Except String String) (rest : List FullTC) (msgs : List Msg)
    (hname : tc.name = some n) (hreg : n ∈ reg) (hex : ex n tc.args = .ok r) :
    execToolsApi reg ex (tc :: rest) msgs =
      (Ev.execTool n :: (execToolsApi reg ex rest (msgs ++ [toolMsg tc n r])).1,
       (execToolsApi reg ex rest (msgs ++ [toolMsg tc n r])).2) := by
  rw [execToolsApi, hname]
  simp only [if_pos hreg, hex]

lemma execToolsAgent1_nil (reg : List String) (ex : String → String → Except String String)
    (msgs : List Msg) : execToolsAgent1 reg ex [] msgs = ([], msgs) := by
  rw [execToolsAgent1]

lemma execToolsAgent1_cons_none {tc : FullTC} (reg : List String)
    (ex : String → String → Except String String) (rest : List FullTC) (msgs : List Msg)
    (hname : tc.name = none) :
    execToolsAgent1 reg ex (tc :: rest) msgs = execToolsAgent1 reg ex rest msgs := by
  rw [execToolsAgent1, hname]

lemma execToolsAgent1_cons_skip {tc : FullTC} {n : String} (reg : List String)
    (ex : String → String → Except String String) (rest : List FullTC) (msgs : List Msg)
    (hname : tc.name = some n) (hreg : n ∉ reg) :
    execToolsAgent1 reg ex (tc :: rest) msgs = execToolsAgent1 reg ex rest msgs := by
  rw [execToolsAgent1, hname]
  simp only [if_neg hreg]

lemma execToolsAgent1_cons_reg {tc : FullTC} {n : String} (reg : List String)
    (ex : String → String → Except String String) (rest : List FullTC) (msgs : List Msg)
    (hname : tc.name = some n) (hreg : n ∈ reg) :
    execToolsAgent1 reg ex (tc :: rest) msgs =
      (Ev.execTool n ::
         (execToolsAgent1 reg ex rest (msgs ++ [toolMsg tc n (agent1Resp ex n tc.args)])).1,
       (execToolsAgent1 reg ex rest (msgs ++ [toolMsg tc n (agent1Resp ex n tc.args)])).2) := by
  rw [execToolsAgent1, hname]
  simp only [if_pos hreg]

lemma execToolsApi_ok_spec (reg : List String)
    (ex : String → String → Except String String) :
    ∀ (ftcs : List FullTC) (msgs : List Msg),
    (∀ tc ∈ ftcs, ∀ n, tc.name = some n → n ∈ reg → ∃ r, ex n tc.args = .ok r) →
    execToolsApi reg ex ftcs msgs =
      ((regNames reg ftcs).map Ev.execTool, msgs ++ regMsgs reg ex ftcs, none) := by
  intro ftcs
  induction ftcs with
  | nil => intro msgs _; simp [execToolsApi_nil, regNames, regMsgs]
  | cons tc rest ih =>
    intro msgs h
    have hrest : ∀ tc ∈ rest, ∀ n, tc.name = some n → n ∈ reg → ∃ r, ex n tc.args = .ok r :=
      fun tc' h' => h tc' (List.mem_cons_of_mem _ h')
    cases hname : tc.name with
    | none =>
      rw [execToolsApi_cons_none reg ex rest msgs hname, ih msgs hrest]
      simp [regNames, regMsgs, List.filterMap_cons, hname]
    | some n =>
      by_cases hreg : n ∈ reg
      · obtain ⟨r, hr⟩ := h tc (List.mem_cons_self _ _) n hname hreg
        rw [execToolsApi_cons_ok reg ex rest msgs hname hreg hr,
            ih (msgs ++ [toolMsg tc n r]) hrest]
        simp only [regNames, regMsgs, List.filterMap_cons, hname, Option.some_bind,
          hreg, reduceIte, List.map_cons, okD, hr]
        simp [List.append_assoc]
      · rw [execToolsApi_cons_skip reg ex rest msgs hname hreg, ih msgs hrest]
        simp [regNames, regMsgs, List.filterMap_cons, hname, hreg]

lemma execToolsAgent1_evs (reg : List String)
    (ex : String → String → Except String String) :
    ∀ (ftcs : List FullTC) (msgs : List Msg),
    (execToolsAgent1 reg ex ftcs msgs).1 = (regNames reg ftcs).map Ev.execTool := by
  intro ftcs
  induction ftcs with
  | nil => intro msgs; simp [execToolsAgent1_nil, regNames]
  | cons tc rest ih =>
    intro msgs
    cases hname : tc.name with
    | none =>
      rw [execToolsAgent1_cons_none reg ex rest msgs hname, ih msgs]
      simp [regNames, List.filterMap_cons, hname]
    | some n =>
      by_cases hreg : n ∈ reg
      · rw [execToolsAgent1_cons_reg reg ex rest msgs hname hreg]
        simp only [List.cons.injEq]
        rw [ih]
        simp [regNames, List.filterMap_cons, hname, hreg]
      · rw [execToolsAgent1_cons_skip reg ex rest msgs hname hreg, ih msgs]
        simp [regNames, List.filterMap_cons, hname, hreg]

/-- Every event of the `src/api.py` execution loop is a tool execution of a
registered name (in particular it is never a model call or an emission). -/
lemma execToolsApi_events (reg : List String)
    (ex : String → String → Except String String) :
    ∀ (ftcs : List FullTC) (msgs : List Msg),
    ∀ e ∈ (execToolsApi reg ex ftcs msgs).1, ∃ n, e = Ev.execTool n ∧ n ∈ reg := by
  intro ftcs
  induction ftcs with
  | nil => intro msgs e he; simp [execToolsApi_nil] at he
  | cons tc rest ih =>
    intro msgs e he
    cases hname : tc.name with
    | none =>
      rw [execToolsApi_cons_none reg ex rest msgs hname] at he
      exact ih msgs e he
    | some n =>
      by_cases hreg : n ∈ reg
      · cases hex : ex n tc.args with
        | error er =>
          rw [execToolsApi_cons_err reg ex rest msgs hname hreg hex] at he
          simp only [List.mem_singleton] at he
          exact ⟨n, he, hreg⟩
        | ok r =>
          rw [execToolsApi_cons_ok reg ex rest msgs hname hreg hex] at he
          rcases List.mem_cons.mp he with h | h
          · exact ⟨n, h, hreg⟩
          · exact ih _ e h
      · rw [execToolsApi_cons_skip reg ex rest msgs hname hreg] at he
        exact ih msgs e he

lemma payloads_of_execs {t : List Ev} (h : ∀ e ∈ t, ∃ n, e = Ev.execTool n) :
    payloads t = [] := by
  induction t with
  | nil => rfl
  | cons e rest ih =>
    obtain ⟨n, hn⟩ := h e (List.mem_cons_self _ _)
    subst hn
    exact ih fun e' he' => h e' (List.mem_cons_of_mem _ he')

lemma mcCount_of_execs {t : List Ev} (h : ∀ e ∈ t, ∃ n, e = Ev.execTool n) :
    modelCallCount t = 0 := by
  induction t with
  | nil => rfl
  | cons e rest ih =>
    obtain ⟨n, hn⟩ := h e (List.mem_cons_self _ _)
    subst hn
    exact ih fun e' he' => h e' (List.mem_cons_of_mem _ he')

lemma bodyApi_no_frags (env : Env) (h : allFrags env.initialChunks = []) :
    bodyApi env =
      ⟨Ev.modelCall 1 :: (env.initialChunks.map fun c => Ev.emit c.json), none, none⟩ := by
  unfold bodyApi
  rw [if_pos h]

lemma bodyApi_recon_fail (env : Env) (hne : allFrags env.initialChunks ≠ [])
    (hrec : reconstruct (allFrags env.initialChunks) = none) :
    bodyApi env =
      ⟨Ev.modelCall 1 :: (env.initialChunks.map fun c => Ev.emit c.json), none,
       some indexErrorMsg⟩ := by
  unfold bodyApi
  rw [if_neg hne, hrec]

lemma bodyApi_exec_err (env : Env) {ftcs : List FullTC} {e : String}
    (hne : allFrags env.initialChunks ≠ [])
    (hrec : reconstruct (allFrags env.initialChunks) = some ftcs)
    (hexec : (execToolsApi AVAILABLE_TOOLS env.exec ftcs
               (env.messages ++ [assistantMsg ftcs])).2.2 = some e) :
    bodyApi env =
      ⟨(Ev.modelCall 1 :: (env.initialChunks.map fun c => Ev.emit c.json)) ++
         (execToolsApi AVAILABLE_TOOLS env.exec ftcs
           (env.messages ++ [assistantMsg ftcs])).1,
       none, some e⟩ := by
  unfold bodyApi
  rw [if_neg hne, hrec]
  simp only [hexec]

lemma bodyApi_ok (env : Env) {ftcs : List FullTC}
    (hne : allFrags env.initialChunks ≠ [])
    (hrec : reconstruct (allFrags env.initialChunks) = some ftcs)
    (hexec : (execToolsApi AVAILABLE_TOOLS env.exec ftcs
               (env.messages ++ [assistantMsg ftcs])).2.2 = none) :
    bodyApi env =
      ⟨(Ev.modelCall 1 :: (env.initialChunks.map fun c => Ev.emit c.json)) ++
         (execToolsApi AVAILABLE_TOOLS env.exec ftcs
           (env.messages ++ [assistantMsg ftcs])).1 ++
         [Ev.modelCall 2] ++ (env.finalChunks.map fun c => Ev.emit c.json),
       some (execToolsApi AVAILABLE_TOOLS env.exec ftcs
               (env.messages ++ [assistantMsg ftcs])).2.1,
       none⟩ := by
  unfold bodyApi
  rw [if_neg hne, hrec]
  simp only [hexec]

lemma bodyAgent1_no_frags (env : Env) (h : allFrags env.initialChunks = []) :
    bodyAgent1 env =
      ⟨Ev.modelCall 1 ::
         ((env.initialChunks.filter fun c => c.contentTruthy).map fun c => Ev.emit c.json),
       none, none⟩ := by
  unfold bodyAgent1
  rw [if_pos h]

lemma bodyAgent1_recon_fail (env : Env) (hne : allFrags env.initialChunks ≠ [])
    (hrec : reconstruct (allFrags env.initialChunks) = none) :
    bodyAgent1 env = ⟨[Ev.modelCall 1], none, some indexErrorMsg⟩ := by
  unfold bodyAgent1
  rw [if_neg hne, hrec]

lemma bodyAgent1_tools (env : Env) {ftcs : List FullTC}
    (hne : allFrags env.initialChunks ≠ [])
    (hrec : reconstruct (allFrags env.initialChunks) = some ftcs) :
    bodyAgent1 env =
      ⟨Ev.modelCall 1 ::
         (execToolsAgent1 AVAILABLE_TOOLS_agent1 env.exec ftcs
           (env.messages ++ [assistantMsg ftcs])).1 ++
         [Ev.modelCall 2] ++ (env.finalChunks.map fun c => Ev.emit c.json),
       some (execToolsAgent1 AVAILABLE_TOOLS_agent1 env.exec ftcs
               (env.messages ++ [assistantMsg ftcs])).2,
       none⟩ := by
  unfold bodyAgent1
  rw [if_neg hne, hrec]

lemma noExecAfter2_cons_ne {e : Ev} (t : List Ev) (h : e ≠ Ev.modelCall 2) :
    noExecAfter2 (e :: t) = noExecAfter2 t := by
  simp [noExecAfter2, h]

lemma noExecAfter2_mc2 (t : List Ev) :
    noExecAfter2 (Ev.modelCall 2 :: t) = t.all fun x => !isExec x := by
  simp [noExecAfter2]

lemma noExecAfter2_append_no2 {a : List Ev} (b : List Ev)
    (h : ∀ e ∈ a, e ≠ Ev.modelCall 2) :
    noExecAfter2 (a ++ b) = noExecAfter2 b := by
  induction a with
  | nil => rfl
  | cons e rest ih =>
    rw [List.cons_append, noExecAfter2_cons_ne _ (h e (List.mem_cons_self _ _))]
    exact ih fun e' he' => h e' (List.mem_cons_of_mem _ he')

lemma noExecAfter2_of_no2 {t : List Ev} (h : ∀ e ∈ t, e ≠ Ev.modelCall 2) :
    noExecAfter2 t = true := by
  induction t with
  | nil => rfl
  | cons e rest ih =>
    rw [noExecAfter2_cons_ne _ (h e (List.mem_cons_self _ _))]
    exact ih fun e' he' => h e' (List.mem_cons_of_mem _ he')

lemma all_not_isExec_emits (cs : List Chunk) :
    ((cs.map fun c => Ev.emit c.json).all fun x => !isExec x) = true := by
  induction cs with
  | nil => rfl
  | cons c cs ih => simp_all [isExec]

lemma emits_ne_mc2 (cs : List Chunk) :
    ∀ e ∈ cs.map fun c => Ev.emit c.json, e ≠ Ev.modelCall 2 := by
  intro e he
  obtain ⟨c, -, hc⟩ := List.mem_map.mp he
  subst hc
  simp

/-! ## Message preparation of the chat endpoint (`src/api.py` lines 210-219) -/

/-- `f"{base_prompt}\n\nFor context, today's date is {today_date}."` -/
def buildSystemPrompt (base today : String) : String :=
  base ++ "\n\nFor context, today's date is " ++ today ++ "."

/-- The injected system message. -/
def systemMsg (p : String) : Msg := ⟨"system", some p, none, none, none⟩

/-- `messages = [{"role": "system", "content": system_prompt}] + request.messages[-10:]`
(Python's `xs[-10:]` is the suffix of the last `min 10 (len xs)` elements). -/
def sentMessages (base today : String) (reqMsgs : List Msg) : List Msg :=
  systemMsg (buildSystemPrompt base today) :: reqMsgs.drop (reqMsgs.length - 10)

/-! ## Tool wrappers' error handling (`src/nba.py`, `src/nfl.py`) -/

/-- A tool's returned dict: `{"status": "ok", "data": ...}` or
`{"status": "error", "error": ...}`. -/
inductive ToolResult where
  | ok (data : String)
  | error (msg : String)
deriving DecidableEq

/-- The function body wrapped by `@cached(schedule_cache)` in `src/nba.py`
lines 9-25.  `apiKey` models `os.getenv("SPORTRADAR_API_KEY")`; `httpResp`
models the `requests.get` round-trip, `.error e` being a raised
`requests.exceptions.RequestException` with message `e` and `.ok d` the
decoded JSON body of a 2xx response. -/
def get_daily_schedule (apiKey : Option String) (httpResp : Except String String) :
    ToolResult :=
  match apiKey with
  | none => .error "SPORTRADAR_API_KEY not found in environment variables."
  | some _ =>
    match httpResp with
    | .ok d => .ok d
    | .error e => .error ("API request failed: " ++ e)

/-- `get_current_week_schedule` of `src/nfl.py` lines 67-98.  The outer
`Except` is a raised exception: a missing API key raises `ValueError`, while
a `RequestException` is caught and turned into the returned error dict
`{"status": "error", "error": str(e)}`. -/
def get_current_week_schedule (apiKey : Option String)
    (httpResp : Except String String) : Except String ToolResult :=
  match apiKey with
  | none => .error "SPORTRADAR_API_KEY not found in environment variables."
  | some _ =>
    match httpResp with
    | .ok d => .ok (.ok d)
    | .error e => .ok (.error e)

/-! ## The `cachetools` TTL caches of `src/nba.py` and `src/odds.py`

`schedule_cache = TTLCache(maxsize=128, ttl=43200)` wraps
`get_daily_schedule`; `odds_cache = TTLCache(maxsize=256, ttl=3600)` wraps
`get_daily_schedule_odds`.  Argument tuples are modelled as `Nat` keys,
cached values by an arbitrary type `V` (so error dicts are covered exactly
like successful results), and the timer by `Nat` seconds.  An entry inserted
at time `t0` is live at time `t` iff `t < t0 + ttl`; on a miss the wrapper
performs the underlying HTTP request (`fetch`), evicting the oldest entry
when the cache already holds `maxsize` live entries. -/

/-- A cache entry: key, cached value, insertion time. -/
structure CEntry (V : Type) where
  key : Nat
  val : V
  tstamp : Nat
deriving DecidableEq

/-- Drop the entries whose TTL has expired at time `now`. -/
def expireC {V : Type} (ttl now : Nat) (c : List (CEntry V)) : List (CEntry V) :=
  c.filter fun e => now < e.tstamp + ttl

/-- Find the live entry for a key. -/
def lookupC {V : Type} (k : Nat) (c : List (CEntry V)) : Option (CEntry V) :=
  c.find? fun e => e.key == k

/-- One call through the `@cached(TTLCache(...))` wrapper: returns the value,
whether a new HTTP request was performed, and the new cache state. -/
def cachedCall {V : Type} (maxsize ttl : Nat) (fetch : Nat → V)
    (c : List (CEntry V)) (k now : Nat) : V × Bool × List (CEntry V) :=
  match lookupC k (expireC ttl now c) with
  | some e => (e.val, false, expireC ttl now c)
  | none =>
    (fetch k, true,
     (if maxsize ≤ (expireC ttl now c).length
      then (expireC ttl now c).tail
      else expireC ttl now c) ++ [⟨k, fetch k, now⟩])

/-- Run a sequence of `(key, time)` calls, collecting the performed-HTTP
flags and the final cache state. -/
def runCallsF {V : Type} (maxsize ttl : Nat) (fetch : Nat → V) :
    List (CEntry V) → List (Nat × Nat) → List Bool × List (CEntry V)
  | c, [] => ([], c)
  | c, (k, t) :: rest =>
    ((cachedCall maxsize ttl fetch c k t).2.1 ::
       (runCallsF maxsize ttl fetch (cachedCall maxsize ttl fetch c k t).2.2 rest).1,
     (runCallsF maxsize ttl fetch (cachedCall maxsize ttl fetch c k t).2.2 rest).2)

/-- `true` iff no step of the run evicts a live entry: every intervening call
is either a hit or inserts while the cache is below `maxsize`. -/
def runOK {V : Type} (maxsize ttl : Nat) (fetch : Nat → V) :
    List (CEntry V) → List (Nat × Nat) → Bool
  | _, [] => true
  | c, (k, t) :: rest =>
    (decide ((expireC ttl t c).length < maxsize) ||
       (lookupC k (expireC ttl t c)).isSome) &&
    runOK maxsize ttl fetch (cachedCall maxsize ttl fetch c k t).2.2 rest

/-- `maxsize` and `ttl` of `schedule_cache` in `src/nba.py` line 6. -/
def schedule_cache_maxsize : Nat := 128

def schedule_cache_ttl : Nat := 43200

/-- `maxsize` and `ttl` of `odds_cache` in `src/odds.py` line 17. -/
def odds_cache_maxsize : Nat := 256

def odds_cache_ttl : Nat := 3600

/-! ## The scheduler loop (`src/agent2/scheduler.py` lines 42-64) -/

def TARGET_HOUR : Nat := 10

def TARGET_MINUTE : Nat := 56

/-- One observation of `datetime.now(tz)` by the loop: its hour, minute and
calendar date (dates as day ordinals). -/
structure Tick where
  hour : Nat
  minute : Nat
  date : Nat
deriving DecidableEq

/-- The guard of `src/agent2/scheduler.py` lines 56-58: run iff the time
matches the target hour and minute and the date differs from the recorded
date of the last run. -/
def shouldRun (last : Option Nat) (t : Tick) : Bool :=
  t.hour == TARGET_HOUR && t.minute == TARGET_MINUTE && !(some t.date == last)

/-- Number of invocations of `run_daily_research` on date `d` over a sequence
of loop iterations, starting from recorded state `last` (`last_run_date`);
the recorded date is set to the tick's date immediately after each
invocation, exactly as lines 60-61 do. -/
def runsAt (d : Nat) : Option Nat → List Tick → Nat
  | _, [] => 0
  | last, t :: ts =>
    if shouldRun last t then
      (if t.date = d then 1 else 0) + runsAt d (some t.date) ts
    else runsAt d last ts

/-- Invariant: the cache holds exactly one entry for key `k`, namely
`⟨k, v, t0⟩`. -/
def KeyAt {V : Type} (k : Nat) (v : V) (t0 : Nat) (c : List (CEntry V)) : Prop :=
  ∃ pre post, c = pre ++ (⟨k, v, t0⟩ : CEntry V) :: post ∧
    (∀ e ∈ pre, e.key ≠ k) ∧ (∀ e ∈ post, e.key ≠ k)

lemma find?_middle {V : Type} {k : Nat} {v : V} {t0 : Nat}
    (pre post : List (CEntry V)) (hpre : ∀ e ∈ pre, e.key ≠ k) :
    (pre ++ (⟨k, v, t0⟩ : CEntry V) :: post).find? (fun e => e.key == k)
      = some ⟨k, v, t0⟩ := by
  induction pre with
  | nil => simp [List.find?]
  | cons e rest ih =>
    have he : (e.key == k) = false := by
      simpa using hpre e (List.mem_cons_self _ _)
    rw [List.cons_append, List.find?_cons, he]
    exact ih fun e' h' => hpre e' (List.mem_cons_of_mem _ h')

lemma lookupC_of_KeyAt {V : Type} {k : Nat} {v : V} {t0 : Nat}
    {c : List (CEntry V)} (h : KeyAt k v t0 c) : lookupC k c = some ⟨k, v, t0⟩ := by
  obtain ⟨pre, post, rfl, hpre, -⟩ := h
  exact find?_middle pre post hpre

lemma expireC_KeyAt {V : Type} {k : Nat} {v : V} {t0 ttl now : Nat}
    {c : List (CEntry V)} (h : KeyAt k v t0 c) (hlive : now < t0 + ttl) :
    KeyAt k v t0 (expireC ttl now c) := by
  obtain ⟨pre, post, rfl, hpre, hpost⟩ := h
  refine ⟨pre.filter fun e => now < e.tstamp + ttl,
          post.filter fun e => now < e.tstamp + ttl, ?_, ?_, ?_⟩
  · unfold expireC
    rw [List.filter_append, List.filter_cons]
    simp [hlive]
  · intro e he
    exact hpre e (List.mem_of_mem_filter he)
  · intro e he
    exact hpost e (List.mem_of_mem_filter he)

lemma cachedCall_hit {V : Type} {k : Nat} {v : V} {t0 : Nat}
    {c : List (CEntry V)} (maxsize ttl : Nat) (fetch : Nat → V) (now : Nat)
    (h : KeyAt k v t0 c) (hlive : now < t0 + ttl) :
    cachedCall maxsize ttl fetch c k now = (v, false, expireC ttl now c) := by
  unfold cachedCall
  rw [lookupC_of_KeyAt (expireC_KeyAt h hlive)]

lemma not_key_of_lookup_none {V : Type} {k : Nat} {c : List (CEntry V)}
    (h : lookupC k c = none) : ∀ e ∈ c, e.key ≠ k := by
  intro e he
  have := List.find?_eq_none.mp h e he
  simpa using this

lemma cachedCall_miss_KeyAt {V : Type} (maxsize ttl : Nat) (fetch : Nat → V)
    {c0 : List (CEntry V)} {k t0 : Nat}
    (h : lookupC k (expireC ttl t0 c0) = none) :
    KeyAt k (fetch k) t0 ((cachedCall maxsize ttl fetch c0 k t0).2.2) := by
  unfold cachedCall
  rw [h]
  refine ⟨(if maxsize ≤ (expireC ttl t0 c0).length
           then (expireC ttl t0 c0).tail
           else expireC ttl t0 c0), [], by simp, ?_, by simp⟩
  intro e he
  apply not_key_of_lookup_none h
  by_cases hc : maxsize ≤ (expireC ttl t0 c0).length
  · rw [if_pos hc] at he
    exact List.mem_of_mem_tail he
  · rwa [if_neg hc] at he

lemma cachedCall_step_KeyAt {V : Type} (maxsize ttl : Nat) (fetch : Nat → V)
    {c : List (CEntry V)} {k t0 k' t' : Nat} {v : V}
    (h : KeyAt k v t0 c) (hlive : t' < t0 + ttl) (hk : k' ≠ k)
    (hnoev : (expireC ttl t' c).length < maxsize ∨
             (lookupC k' (expireC ttl t' c)).isSome = true) :
    KeyAt k v t0 ((cachedCall maxsize ttl fetch c k' t').2.2) := by
  unfold cachedCall
  cases hl : lookupC k' (expireC ttl t' c) with
  | some e => exact expireC_KeyAt h hlive
  | none =>
    have hlt : (expireC ttl t' c).length < maxsize := by
      rcases hnoev with h1 | h1
      · exact h1
      · rw [hl] at h1; simp at h1
    rw [if_neg (Nat.not_le_of_lt hlt)]
    obtain ⟨pre, post, heq, hpre, hpost⟩ := expireC_KeyAt h hlive
    refine ⟨pre, post ++ [⟨k', fetch k', t'⟩], ?_, hpre, ?_⟩
    · rw [heq]; simp
    · intro e he
      rcases List.mem_append.mp he with h1 | h1
      · exact hpost e h1
      · simp only [List.mem_singleton] at h1
        subst h1
        exact hk

lemma runCallsF_KeyAt {V : Type} (maxsize ttl : Nat) (fetch : Nat → V)
    {k t0 : Nat} {v : V} :
    ∀ (mids : List (Nat × Nat)) (c : List (CEntry V)),
    KeyAt k v t0 c →
    (∀ p ∈ mids, p.1 ≠ k ∧ p.2 < t0 + ttl) →
    runOK maxsize ttl fetch c mids = true →
    KeyAt k v t0 (runCallsF maxsize ttl fetch c mids).2 := by
  intro mids
  induction mids with
  | nil => intro c h _ _; exact h
  | cons p rest ih =>
    intro c h hmids hok
    obtain ⟨hk, hlive⟩ := hmids p (List.mem_cons_self _ _)
    rw [runOK] at hok
    rw [Bool.and_eq_true] at hok
    obtain ⟨hcond, hokrest⟩ := hok
    rw [Bool.or_eq_true, decide_eq_true_eq] at hcond
    have hstep := cachedCall_step_KeyAt maxsize ttl fetch h hlive hk hcond
    rw [runCallsF]
    exact ih _ hstep (fun q hq => hmids q (List.mem_cons_of_mem _ hq)) hokrest

/-- After a first (miss) call for key `k` at time `t0` and any intervening
calls for other keys within `k`'s TTL that never evict, a second call for `k`
at a time still within the TTL is a hit: it returns the identical cached
value (whatever it is, error dicts included) and performs no HTTP request. -/
lemma cache_second_call {V : Type} (maxsize ttl : Nat) (fetch : Nat → V)
    (c0 : List (CEntry V)) (k t0 t2 : Nat) (mids : List (Nat × Nat))
    (hmiss : lookupC k (expireC ttl t0 c0) = none)
    (hmids : ∀ p ∈ mids, p.1 ≠ k ∧ p.2 < t0 + ttl)
    (hok : runOK maxsize ttl fetch (cachedCall maxsize ttl fetch c0 k t0).2.2 mids = true)
    (ht2 : t2 < t0 + ttl) :
    (cachedCall maxsize ttl fetch
       (runCallsF maxsize ttl fetch (cachedCall maxsize ttl fetch c0 k t0).2.2 mids).2
       k t2).1 = fetch k ∧
    (cachedCall maxsize ttl fetch
       (runCallsF maxsize ttl fetch (cachedCall maxsize ttl fetch c0 k t0).2.2 mids).2
       k t2).2.1 = false := by
  have h1 := cachedCall_miss_KeyAt maxsize ttl fetch hmiss
  have h2 := runCallsF_KeyAt maxsize ttl fetch mids _ h1 hmids hok
  rw [cachedCall_hit maxsize ttl fetch t2 h2 ht2]
  exact ⟨rfl, rfl⟩

lemma shouldRun_false_same {d : Nat} {t : Tick} (h : t.date = d) :
    shouldRun (some d) t = false := by
  simp [shouldRun, h]

lemma runsAt_zero_of_gt {d : Nat} :
    ∀ (ticks : List Tick), (∀ t ∈ ticks, d < t.date) →
    ∀ last, runsAt d last ticks = 0 := by
  intro ticks
  induction ticks with
  | nil => intro _ last; rfl
  | cons t ts ih =>
    intro h last
    have hd : d < t.date := h t (List.mem_cons_self _ _)
    have hrest : ∀ t ∈ ts, d < t.date := fun t' h' => h t' (List.mem_cons_of_mem _ h')
    rw [runsAt]
    by_cases hs : shouldRun last t = true
    · rw [if_pos hs, if_neg (by omega : ¬ t.date = d), ih hrest (some t.date)]
    · rw [if_neg hs]
      exact ih hrest last

lemma runsAt_zero_of_blocked {d : Nat} :
    ∀ (ticks : List Tick),
    List.Pairwise (fun a b => a.date ≤ b.date) ticks →
    (∀ t ∈ ticks, d ≤ t.date) →
    runsAt d (some d) ticks = 0 := by
  intro ticks
  induction ticks with
  | nil => intro _ _; rfl
  | cons t ts ih =>
    intro hp hle
    obtain ⟨h1, hp'⟩ := List.pairwise_cons.mp hp
    have hle' : ∀ b ∈ ts, d ≤ b.date := fun b hb => hle b (List.mem_cons_of_mem _ hb)
    rw [runsAt]
    by_cases heq : t.date = d
    · rw [if_neg (by rw [shouldRun_false_same heq]; simp)]
      exact ih hp' hle'
    · have hd : d < t.date :=
        Nat.lt_of_le_of_ne (hle t (List.mem_cons_self _ _)) fun h => heq h.symm
      by_cases hs : shouldRun (some d) t = true
      · rw [if_pos hs, if_neg (by omega : ¬ t.date = d),
            runsAt_zero_of_gt ts (fun b hb => Nat.lt_of_lt_of_le hd (h1 b hb))
              (some t.date)]
      · rw [if_neg hs]
        exact ih hp' hle'

lemma runsAt_le_one {d : Nat} :
    ∀ (ticks : List Tick),
    List.Pairwise (fun a b => a.date ≤ b.date) ticks →
    ∀ last, runsAt d last ticks ≤ 1 := by
  intro ticks
  induction ticks with
  | nil => intro _ last; simp [runsAt]
  | cons t ts ih =>
    intro hp last
    obtain ⟨h1, hp'⟩ := List.pairwise_cons.mp hp
    rw [runsAt]
    by_cases hs : shouldRun last t = true
    · rw [if_pos hs]
      by_cases heq : t.date = d
      · rw [if_pos heq]
        have : runsAt d (some t.date) ts = 0 := by
          rw [heq]
          exact runsAt_zero_of_blocked ts hp' fun b hb => by
            have := h1 b hb
            omega
        omega
      · rw [if_neg heq]
        have := ih hp' (some t.date)
        omega
    · rw [if_neg hs]
      exact ih hp' last

/-! ## Helper lemmas about registered names in traces -/

lemma regNames_subset (reg : List String) :
    ∀ (ftcs : List FullTC) (n : String), n ∈ regNames reg ftcs → n ∈ reg := by
  intro ftcs n h
  unfold regNames at h
  obtain ⟨tc, -, htc⟩ := List.mem_filterMap.mp h
  cases hname : tc.name with
  | none => rw [hname] at htc; simp at htc
  | some m =>
    rw [hname] at htc
    simp only [Option.some_bind] at htc
    by_cases hreg : m ∈ reg
    · rw [if_pos hreg] at htc
      cases htc
      exact hreg
    · rw [if_neg hreg] at htc
      simp at htc

lemma execTool_mem_runGenWrap {b : BodyOut} {n : String}
    (h : Ev.execTool n ∈ runGenWrap b) : Ev.execTool n ∈ b.evs := by
  cases hexc : b.exc <;> simp [runGenWrap, hexc] at h <;> exact h

lemma execTool_not_mem_emits {n : String} (cs : List Chunk) :
    Ev.execTool n ∉ (cs.map fun c => Ev.emit c.json) := by
  intro h
  obtain ⟨c, -, hc⟩ := List.mem_map.mp h
  exact absurd hc (by simp)

lemma execTool_mem_bodyApi {env : Env} {n : String}
    (h : Ev.execTool n ∈ (bodyApi env).evs) : n ∈ AVAILABLE_TOOLS := by
  by_cases hne : allFrags env.initialChunks = []
  · rw [bodyApi_no_frags env hne] at h
    rcases List.mem_cons.mp h with h1 | h2
    · exact absurd h1 (by simp)
    · exact absurd h2 (execTool_not_mem_emits _)
  · cases hrec : reconstruct (allFrags env.initialChunks) with
    | none =>
      rw [bodyApi_recon_fail env hne hrec] at h
      rcases List.mem_cons.mp h with h1 | h2
      · exact absurd h1 (by simp)
      · exact absurd h2 (execTool_not_mem_emits _)
    | some ftcs =>
      cases hexec : (execToolsApi AVAILABLE_TOOLS env.exec ftcs
          (env.messages ++ [assistantMsg ftcs])).2.2 with
      | some e =>
        rw [bodyApi_exec_err env hne hrec hexec] at h
        rcases List.mem_append.mp h with hA | hB
        · rcases List.mem_cons.mp hA with h1 | h2
          · exact absurd h1 (by simp)
          · exact absurd h2 (execTool_not_mem_emits _)
        · obtain ⟨m, hm, hreg⟩ := execToolsApi_events AVAILABLE_TOOLS env.exec ftcs _ _ hB
          injection hm with hnm
          subst hnm
          exact hreg
      | none =>
        rw [bodyApi_ok env hne hrec hexec] at h
        rcases List.mem_append.mp h with h1 | hD
        · rcases List.mem_append.mp h1 with h2 | hC
          · rcases List.mem_append.mp h2 with hA | hB
            · rcases List.mem_cons.mp hA with h3 | h4
              · exact absurd h3 (by simp)
              · exact absurd h4 (execTool_not_mem_emits _)
            · obtain ⟨m, hm, hreg⟩ :=
                execToolsApi_events AVAILABLE_TOOLS env.exec ftcs _ _ hB
              injection hm with hnm
              subst hnm
              exact hreg
          · rcases List.mem_singleton.mp hC with h3
            exact absurd h3 (by simp)
        · exact absurd hD (execTool_not_mem_emits _)

lemma execTool_mem_bodyAgent1 {env : Env} {n : String}
    (h : Ev.execTool n ∈ (bodyAgent1 env).evs) : n ∈ AVAILABLE_TOOLS_agent1 := by
  by_cases hne : allFrags env.initialChunks = []
  · rw [bodyAgent1_no_frags env hne] at h
    rcases List.mem_cons.mp h with h1 | h2
    · exact absurd h1 (by simp)
    · exact absurd h2 (execTool_not_mem_emits _)
  · cases hrec : reconstruct (allFrags env.initialChunks) with
    | none =>
      rw [bodyAgent1_recon_fail env hne hrec] at h
      rcases List.mem_singleton.mp h with h1
      exact absurd h1 (by simp)
    | some ftcs =>
      rw [bodyAgent1_tools env hne hrec] at h
      rcases List.mem_cons.mp h with h1 | h2
      · exact absurd h1 (by simp)
      · rcases List.mem_append.mp h2 with h3 | hD
        · rcases List.mem_append.mp h3 with hB | hC
          · rw [execToolsAgent1_evs] at hB
            obtain ⟨m, hmem, hm⟩ := List.mem_map.mp hB
            injection hm with hnm
            subst hnm
            exact regNames_subset AVAILABLE_TOOLS_agent1 ftcs _ hmem
          · rcases List.mem_singleton.mp hC with h4
            exact absurd h4 (by simp)
        · exact absurd hD (execTool_not_mem_emits _)

/-! ## Claim theorems -/

/-- C5: a tool function whose HTTP request raises a `RequestException`
catches it and returns an error dict (`{"status": "error", "error": ...}`)
instead of propagating the exception (`src/nba.py` lines 20-25, `src/nfl.py`
lines 92-98); and an exception escaping into the stream generator of
`src/api.py` is caught and emitted as a JSON error payload followed by the
`[DONE]` terminator (`src/api.py` lines 281-286). -/
theorem claim5_error_handling :
    (∀ key e, get_daily_schedule (some key) (.error e)
        = ToolResult.error ("API request failed: " ++ e)) ∧
    (∀ key e, get_current_week_schedule (some key) (.error e)
        = Except.ok (ToolResult.error e)) ∧
    (∀ (env : Env) (e : String), (bodyApi env).exc = some e →
      payloads (runGenApi env) =
        "[STREAM_STARTED]" :: (payloads (bodyApi env).evs ++
          [errPayload e, "[DONE]"])) := by
  refine ⟨fun key e => rfl, fun key e => rfl, fun env e hexc => ?_⟩
  unfold runGenApi runGenWrap
  rw [hexc]
  simp [payloads_append]

/-- C6 (amended): within the TTL (43200 s for `get_daily_schedule`'s
`schedule_cache`, 3600 s for `get_daily_schedule_odds`'s `odds_cache`) a
second call with equal arguments returns the identical cached value — error
results exactly like successful ones, since the value type `V` is arbitrary —
and performs no new HTTP request, PROVIDED the entry was not evicted in
between; eviction can only happen when a miss occurs while the cache already
holds `maxsize` (128 resp. 256) live entries, which `runOK` rules out. -/
theorem claim6_amended :
    (∀ (V : Type) (fetch : Nat → V) (c0 : List (CEntry V)) (k t0 t2 : Nat)
       (mids : List (Nat × Nat)),
      lookupC k (expireC schedule_cache_ttl t0 c0) = none →
      (∀ p ∈ mids, p.1 ≠ k ∧ p.2 < t0 + schedule_cache_ttl) →
      runOK schedule_cache_maxsize schedule_cache_ttl fetch
        (cachedCall schedule_cache_maxsize schedule_cache_ttl fetch c0 k t0).2.2
        mids = true →
      t2 < t0 + schedule_cache_ttl →
      (cachedCall schedule_cache_maxsize schedule_cache_ttl fetch
         (runCallsF schedule_cache_maxsize schedule_cache_ttl fetch
           (cachedCall schedule_cache_maxsize schedule_cache_ttl fetch c0 k t0).2.2
           mids).2 k t2).1 = fetch k ∧
      (cachedCall schedule_cache_maxsize schedule_cache_ttl fetch
         (runCallsF schedule_cache_maxsize schedule_cache_ttl fetch
           (cachedCall schedule_cache_maxsize schedule_cache_ttl fetch c0 k t0).2.2
           mids).2 k t2).2.1 = false) ∧
    (∀ (V : Type) (fetch : Nat → V) (c0 : List (CEntry V)) (k t0 t2 : Nat)
       (mids : List (Nat × Nat)),
      lookupC k (expireC odds_cache_ttl t0 c0) = none →
      (∀ p ∈ mids, p.1 ≠ k ∧ p.2 < t0 + odds_cache_ttl) →
      runOK odds_cache_maxsize odds_cache_ttl fetch
        (cachedCall odds_cache_maxsize odds_cache_ttl fetch c0 k t0).2.2
        mids = true →
      t2 < t0 + odds_cache_ttl →
      (cachedCall odds_cache_maxsize odds_cache_ttl fetch
         (runCallsF odds_cache_maxsize odds_cache_ttl fetch
           (cachedCall odds_cache_maxsize odds_cache_ttl fetch c0 k t0).2.2
           mids).2 k t2).1 = fetch k ∧
      (cachedCall odds_cache_maxsize odds_cache_ttl fetch
         (runCallsF odds_cache_maxsize odds_cache_ttl fetch
           (cachedCall odds_cache_maxsize odds_cache_ttl fetch c0 k t0).2.2
           mids).2 k t2).2.1 = false) :=
  ⟨fun _ fetch c0 k t0 t2 mids h1 h2 h3 h4 =>
     cache_second_call schedule_cache_maxsize schedule_cache_ttl fetch c0 k t0 t2 mids
       h1 h2 h3 h4,
   fun _ fetch c0 k t0 t2 mids h1 h2 h3 h4 =>
     cache_second_call odds_cache_maxsize odds_cache_ttl fetch c0 k t0 t2 mids
       h1 h2 h3 h4⟩

/-- The call trace refuting C6 as stated: key 0 is fetched at time 0, then
128 distinct other keys are fetched (still at time 0), and key 0 is asked
again at time 1 — well within the 43200-second TTL. -/
def c6Trace : List (Nat × Nat) :=
  ((0, 0) :: (List.range 128).map fun i => (i + 1, 0)) ++ [(0, 1)]

set_option maxRecDepth 10000 in
/-- C6 counterexample: on `schedule_cache` (`maxsize=128, ttl=43200`) the
second call for key 0 arrives 1 second after the first — within the TTL —
yet performs a new HTTP request (`true` flag), because the 128 intervening
distinct calls evicted the entry.  So "a second call within the TTL performs
no new HTTP request" is false as stated. -/
theorem claim6_counterexample :
    (runCallsF schedule_cache_maxsize schedule_cache_ttl (fun k => k) []
       c6Trace).1.head? = some true ∧
    (runCallsF schedule_cache_maxsize schedule_cache_ttl (fun k => k) []
       c6Trace).1.getLast? = some true ∧
    c6Trace.head? = some (0, 0) ∧
    c6Trace.getLast? = some (0, 1) ∧
    1 < 0 + schedule_cache_ttl := by
  refine ⟨by decide, by decide, by decide, by decide, by decide⟩

/-- C7 (amended): when the first tool-call fragment carries a TRUTHY id
(non-null and non-empty), the reconstruction of `src/api.py` lines 245-249 /
`src/agent1/api.py` lines 374-378 never indexes an empty list (it returns
`some _`, never the `none` that models `IndexError`), and yields one call per
id-bearing fragment whose arguments string is the concatenation, in stream
order, of the argument fragments up to the next id-bearing fragment. -/
theorem claim7_amended (f : Frag) (rest : List Frag) (hid : f.idTruthy = true) :
    reconstruct (f :: rest) = some (reconSpec (f :: rest)) :=
  reconstruct_eq_spec f rest hid

theorem claim7_witness :
    reconstruct
      [⟨some "call_1", some "get_daily_schedule", some "\x7b\"ye"⟩,
       ⟨none, none, some "ar\": 2025\x7d"⟩,
       ⟨some "call_2", some "get_game_summary", none⟩,
       ⟨none, none, some "\x7b\x7d"⟩] =
      some [⟨"call_1", some "get_daily_schedule", "\x7b\"year\": 2025\x7d"⟩,
            ⟨"call_2", some "get_game_summary", "\x7b\x7d"⟩] :=
  (claim7_amended _ _ (by decide)).trans (by decide)

/-- C7 counterexample: a first fragment whose id is NON-NULL but empty
(`""`, falsy in Python) followed by an argument fragment makes
`full_tool_calls[-1]` index the empty list: the reconstruction fails even
though the first fragment's id is non-null, so the claim's "non-null id"
guard is wrong (truthiness, not non-nullness, is what the code checks). -/
theorem claim7_counterexample :
    reconstruct [⟨some "", none, some "x"⟩] = none ∧
    (⟨some "", none, some "x"⟩ : Frag).id ≠ none := by
  refine ⟨by decide, by decide⟩

/-- C8: the message list sent to the upstream model is exactly one injected
system message (the prompt file's text with the date appended, `src/api.py`
lines 215-216) followed by the last `min 10 n` request messages; everything
earlier is dropped (`request.messages[-10:]`, line 219). -/
theorem claim8_last_ten (base today : String) (reqMsgs : List Msg) :
    sentMessages base today reqMsgs =
      systemMsg (buildSystemPrompt base today) ::
        reqMsgs.drop (reqMsgs.length - 10) ∧
    (sentMessages base today reqMsgs).length = 1 + min 10 reqMsgs.length ∧
    (sentMessages base today reqMsgs).tail.IsSuffix reqMsgs ∧
    (sentMessages base today reqMsgs).head? =
      some (systemMsg (buildSystemPrompt base today)) := by
  refine ⟨rfl, ?_, ?_, rfl⟩
  · simp only [sentMessages, List.length_cons, List.length_drop]
    omega
  · exact List.drop_suffix _ _

/-- C9: the set of function names advertised in `tools_schema` equals the set
of keys of `AVAILABLE_TOOLS`, in `src/api.py` (7 names) and in
`src/agent1/api.py` (11 names), both duplicate-free; and every tool execution
either generator ever performs uses a name of its registry — the registries
are constants of the embedding, never modified by any operation. -/
theorem claim9_registry :
    tools_schema_names.toFinset = AVAILABLE_TOOLS.toFinset ∧
    tools_schema_names_agent1.toFinset = AVAILABLE_TOOLS_agent1.toFinset ∧
    AVAILABLE_TOOLS.Nodup ∧ AVAILABLE_TOOLS_agent1.Nodup ∧
    tools_schema_names.Nodup ∧ tools_schema_names_agent1.Nodup ∧
    (∀ (env : Env) (n : String),
       Ev.execTool n ∈ runGenApi env → n ∈ AVAILABLE_TOOLS) ∧
    (∀ (env : Env) (n : String),
       Ev.execTool n ∈ runGenAgent1 env → n ∈ AVAILABLE_TOOLS_agent1) := by
  refine ⟨by decide, by decide, by decide, by decide, by decide, by decide,
          fun env n h => ?_, fun env n h => ?_⟩
  · exact execTool_mem_bodyApi (execTool_mem_runGenWrap h)
  · exact execTool_mem_bodyAgent1 (execTool_mem_runGenWrap h)

/-- C10: the scheduler's guard (`src/agent2/scheduler.py` lines 56-58) runs
the job exactly when hour and minute match the targets and the date differs
from the recorded last-run date; the recorded date is updated right after the
run (built into `runsAt`), and under a monotone clock (nondecreasing observed
dates) the job runs at most once per calendar date. -/
theorem claim10_scheduler :
    (∀ (last : Option Nat) (t : Tick),
       shouldRun last t = true ↔
         (t.hour = TARGET_HOUR ∧ t.minute = TARGET_MINUTE ∧ some t.date ≠ last)) ∧
    (∀ (d : Nat) (ticks : List Tick),
       List.Pairwise (fun a b => a.date ≤ b.date) ticks →
       runsAt d none ticks ≤ 1) := by
  constructor
  · intro last t
    simp [shouldRun, and_assoc]
  · intro d ticks hp
    exact runsAt_le_one ticks hp none

/-! ## Wrap-level helper lemmas for the remaining claims -/

/-- The error-branch payloads of the generator wrapper. -/
def excPayloads : Option String → List String
  | some e => [errPayload e]
  | none => []

lemma payloads_runGenWrap (b : BodyOut) :
    payloads (runGenWrap b) =
      "[STREAM_STARTED]" :: (payloads b.evs ++ excPayloads b.exc) ++ ["[DONE]"] := by
  unfold runGenWrap
  cases hexc : b.exc <;>
    simp [payloads_append, excPayloads, hexc, List.append_assoc]

lemma mcCount_runGenWrap (b : BodyOut) :
    modelCallCount (runGenWrap b) = modelCallCount b.evs := by
  unfold runGenWrap
  cases hexc : b.exc <;> simp [mcCount_append, hexc]

lemma mem_runGenWrap {b : BodyOut} {e : Ev} (he : e ∈ runGenWrap b) :
    e ∈ b.evs ∨ ∃ s, e = Ev.emit s := by
  unfold runGenWrap at he
  rcases List.mem_cons.mp he with h1 | h2
  · exact Or.inr ⟨_, h1⟩
  · rcases List.mem_append.mp h2 with h3 | h4
    · rcases List.mem_append.mp h3 with h5 | h6
      · exact Or.inl h5
      · cases hexc : b.exc with
        | some e' =>
          rw [hexc] at h6
          exact Or.inr ⟨_, List.mem_singleton.mp h6⟩
        | none =>
          rw [hexc] at h6
          simp at h6
    · exact Or.inr ⟨_, List.mem_singleton.mp h4⟩

lemma noExecAfter2_runGenWrap_no2 (b : BodyOut)
    (h : ∀ e ∈ b.evs, e ≠ Ev.modelCall 2) : noExecAfter2 (runGenWrap b) = true := by
  apply noExecAfter2_of_no2
  intro e he
  rcases mem_runGenWrap he with h1 | ⟨s, rfl⟩
  · exact h e h1
  · simp

lemma mc1_emits_no2 (cs : List Chunk) :
    ∀ e ∈ Ev.modelCall 1 :: (cs.map fun c => Ev.emit c.json), e ≠ Ev.modelCall 2 := by
  intro e he
  rcases List.mem_cons.mp he with h | h
  · subst h; simp
  · obtain ⟨c, -, hc⟩ := List.mem_map.mp h
    subst hc; simp

lemma noExecAfter2_split (X Y : List Ev) (h : ∀ e ∈ X, e ≠ Ev.modelCall 2) :
    noExecAfter2 (X ++ Ev.modelCall 2 :: Y) = Y.all fun x => !isExec x := by
  rw [noExecAfter2_append_no2 _ h, noExecAfter2_mc2]

/-! ## Concrete environments for witnesses and counterexamples -/

/-- Environment whose initial response requests the registered (`src/api.py`)
tool `get_daily_schedule`. -/
def envA : Env :=
  { messages := [],
    initialChunks := [⟨"CHUNK_A", [⟨some "call_1", some "get_daily_schedule", some "\x7b\x7d"⟩], none⟩],
    finalChunks := [⟨"CHUNK_B", [], some "ok"⟩],
    exec := fun _ _ => .ok "RESP" }

/-- The reconstructed calls of `envA`'s initial response. -/
def ftcsA : List FullTC := [⟨"call_1", some "get_daily_schedule", "\x7b\x7d"⟩]

/-- Environment whose initial response requests the `src/agent1/api.py`
registered tool `clear_caches`; its one initial chunk also carries content. -/
def envA2 : Env :=
  { messages := [],
    initialChunks := [⟨"CHUNK_A", [⟨some "call_2", some "clear_caches", some ""⟩], some "hello"⟩],
    finalChunks := [⟨"CHUNK_B", [], some "ok"⟩],
    exec := fun _ _ => .ok "RESP" }

/-- The reconstructed calls of `envA2`'s initial response. -/
def ftcsA2 : List FullTC := [⟨"call_2", some "clear_caches", ""⟩]

/-- Environment whose initial response calls a name absent from
`AVAILABLE_TOOLS`. -/
def envC3 : Env :=
  { messages := [],
    initialChunks := [⟨"CHUNK_C", [⟨some "call_7", some "mystery_tool", some ""⟩], none⟩],
    finalChunks := [],
    exec := fun _ _ => .ok "RESP" }

/-- Environment with no tool calls and no chunks at all. -/
def envB : Env :=
  { messages := [], initialChunks := [], finalChunks := [],
    exec := fun _ _ => .ok "" }

/-- Environment whose registered tool execution raises. -/
def envC5 : Env :=
  { messages := [],
    initialChunks := [⟨"CHUNK_E", [⟨some "call_9", some "get_daily_schedule", some ""⟩], none⟩],
    finalChunks := [],
    exec := fun _ _ => .error "boom" }

/-! ## C1 -/

/-- C1 (amended): with tool calls in the initial response (reconstructing to
`ftcs`, every registered execution succeeding), `src/api.py` streams every
chunk of the initial response in order, then executes each registered call in
order, then makes the second model call and streams the final chunks;
`src/agent1/api.py` however NEVER forwards the initial response's chunks: it
executes the registered calls and streams only the final answer. -/
theorem claim1_amended (env : Env) (ftcs : List FullTC)
    (hne : allFrags env.initialChunks ≠ [])
    (hrec : reconstruct (allFrags env.initialChunks) = some ftcs)
    (hok : ∀ tc ∈ ftcs, ∀ n, tc.name = some n → n ∈ AVAILABLE_TOOLS →
           ∃ r, env.exec n tc.args = .ok r) :
    runGenApi env =
      Ev.emit "[STREAM_STARTED]" :: Ev.modelCall 1 ::
        ((env.initialChunks.map fun c => Ev.emit c.json) ++
         ((regNames AVAILABLE_TOOLS ftcs).map Ev.execTool) ++
         [Ev.modelCall 2] ++ (env.finalChunks.map fun c => Ev.emit c.json) ++
         [Ev.emit "[DONE]"]) ∧
    runGenAgent1 env =
      Ev.emit "[STREAM_STARTED]" :: Ev.modelCall 1 ::
        (((regNames AVAILABLE_TOOLS_agent1 ftcs).map Ev.execTool) ++
         [Ev.modelCall 2] ++ (env.finalChunks.map fun c => Ev.emit c.json) ++
         [Ev.emit "[DONE]"]) := by
  have hspec := execToolsApi_ok_spec AVAILABLE_TOOLS env.exec ftcs
    (env.messages ++ [assistantMsg ftcs]) hok
  constructor
  · unfold runGenApi runGenWrap
    rw [bodyApi_ok env hne hrec (by rw [hspec])]
    simp only [hspec]
    simp [List.append_assoc]
  · unfold runGenAgent1 runGenWrap
    rw [bodyAgent1_tools env hne hrec]
    simp only [execToolsAgent1_evs]
    simp [List.append_assoc]

theorem claim1_witness :
    runGenApi envA =
      Ev.emit "[STREAM_STARTED]" :: Ev.modelCall 1 ::
        ((envA.initialChunks.map fun c => Ev.emit c.json) ++
         ((regNames AVAILABLE_TOOLS ftcsA).map Ev.execTool) ++
         [Ev.modelCall 2] ++ (envA.finalChunks.map fun c => Ev.emit c.json) ++
         [Ev.emit "[DONE]"]) ∧
    runGenAgent1 envA2 =
      Ev.emit "[STREAM_STARTED]" :: Ev.modelCall 1 ::
        (((regNames AVAILABLE_TOOLS_agent1 ftcsA2).map Ev.execTool) ++
         [Ev.modelCall 2] ++ (envA2.finalChunks.map fun c => Ev.emit c.json) ++
         [Ev.emit "[DONE]"]) :=
  ⟨(claim1_amended envA ftcsA (by decide) (by decide)
      (fun tc _ n _ _ => ⟨"RESP", rfl⟩)).1,
   (claim1_amended envA2 ftcsA2 (by decide) (by decide)
      (fun tc _ n _ _ => ⟨"RESP", rfl⟩)).2⟩

/-- C1 counterexample: in `src/agent1/api.py` the initial response is NOT
streamed to the client.  `envA2`'s initial response consists of the single
chunk `"CHUNK_A"` (content-bearing, and containing a function call), yet the
generator's trace contains no emission of that chunk. -/
theorem claim1_counterexample :
    allFrags envA2.initialChunks ≠ [] ∧
    envA2.initialChunks.map Chunk.json = ["CHUNK_A"] ∧
    Ev.emit "CHUNK_A" ∉ runGenAgent1 envA2 := by
  refine ⟨by decide, by decide, by decide⟩

/-! ## C2 -/

/-- C2: each generator makes at most two upstream model calls, exactly one
when the initial response carries no tool calls, and no tool execution ever
happens after the second model call (tool calls of the final response are
streamed but never executed). -/
theorem claim2_two_roundtrips (env : Env) :
    modelCallCount (runGenApi env) ≤ 2 ∧
    modelCallCount (runGenAgent1 env) ≤ 2 ∧
    noExecAfter2 (runGenApi env) = true ∧
    noExecAfter2 (runGenAgent1 env) = true ∧
    (allFrags env.initialChunks = [] →
      modelCallCount (runGenApi env) = 1 ∧ modelCallCount (runGenAgent1 env) = 1) := by
  by_cases hne : allFrags env.initialChunks = []
  · have h1 : modelCallCount (runGenApi env) = 1 := by
      unfold runGenApi
      rw [mcCount_runGenWrap, bodyApi_no_frags env hne]
      simp [mcCount_map_emit]
    have h2 : modelCallCount (runGenAgent1 env) = 1 := by
      unfold runGenAgent1
      rw [mcCount_runGenWrap, bodyAgent1_no_frags env hne]
      simp [mcCount_map_emit]
    refine ⟨by omega, by omega, ?_, ?_, fun _ => ⟨h1, h2⟩⟩
    · unfold runGenApi
      apply noExecAfter2_runGenWrap_no2
      rw [bodyApi_no_frags env hne]
      exact mc1_emits_no2 _
    · unfold runGenAgent1
      apply noExecAfter2_runGenWrap_no2
      rw [bodyAgent1_no_frags env hne]
      exact mc1_emits_no2 _
  · cases hrec : reconstruct (allFrags env.initialChunks) with
    | none =>
      have h1 : modelCallCount (runGenApi env) = 1 := by
        unfold runGenApi
        rw [mcCount_runGenWrap, bodyApi_recon_fail env hne hrec]
        simp [mcCount_map_emit]
      have h2 : modelCallCount (runGenAgent1 env) = 1 := by
        unfold runGenAgent1
        rw [mcCount_runGenWrap, bodyAgent1_recon_fail env hne hrec]
        simp
      refine ⟨by omega, by omega, ?_, ?_, fun h => absurd h hne⟩
      · unfold runGenApi
        apply noExecAfter2_runGenWrap_no2
        rw [bodyApi_recon_fail env hne hrec]
        exact mc1_emits_no2 _
      · unfold runGenAgent1
        apply noExecAfter2_runGenWrap_no2
        rw [bodyAgent1_recon_fail env hne hrec]
        intro e he
        rcases List.mem_singleton.mp he with rfl
        simp
    | some ftcs =>
      have hexecA : ∀ e ∈ (execToolsApi AVAILABLE_TOOLS env.exec ftcs
          (env.messages ++ [assistantMsg ftcs])).1, e ≠ Ev.modelCall 2 := by
        intro e he
        obtain ⟨m, hm, -⟩ := execToolsApi_events AVAILABLE_TOOLS env.exec ftcs _ _ he
        subst hm
        simp
      have hexecAmc : modelCallCount (execToolsApi AVAILABLE_TOOLS env.exec ftcs
          (env.messages ++ [assistantMsg ftcs])).1 = 0 := by
        apply mcCount_of_execs
        intro e he
        obtain ⟨m, hm, -⟩ := execToolsApi_events AVAILABLE_TOOLS env.exec ftcs _ _ he
        exact ⟨m, hm⟩
      have hagent_evs := execToolsAgent1_evs AVAILABLE_TOOLS_agent1 env.exec ftcs
        (env.messages ++ [assistantMsg ftcs])
      have h2 : modelCallCount (runGenAgent1 env) = 2 := by
        unfold runGenAgent1
        rw [mcCount_runGenWrap, bodyAgent1_tools env hne hrec]
        simp only [List.cons_append]
        rw [mcCount_mc_cons]
        rw [mcCount_append, mcCount_append, hagent_evs,
            mcCount_map_execTool, mcCount_map_emit]
        simp
      have hnoexec2 : noExecAfter2 (runGenAgent1 env) = true := by
        unfold runGenAgent1 runGenWrap
        rw [bodyAgent1_tools env hne hrec]
        simp only [excPayloads, List.append_nil, List.cons_append, List.nil_append,
          List.append_assoc, List.singleton_append]
        rw [show (Ev.emit "[STREAM_STARTED]" :: Ev.modelCall 1 ::
              ((execToolsAgent1 AVAILABLE_TOOLS_agent1 env.exec ftcs
                 (env.messages ++ [assistantMsg ftcs])).1 ++
               (Ev.modelCall 2 ::
                 ((env.finalChunks.map fun c => Ev.emit c.json) ++ [Ev.emit "[DONE]"]))))
            = (Ev.emit "[STREAM_STARTED]" :: Ev.modelCall 1 ::
                (execToolsAgent1 AVAILABLE_TOOLS_agent1 env.exec ftcs
                  (env.messages ++ [assistantMsg ftcs])).1) ++
              Ev.modelCall 2 ::
                ((env.finalChunks.map fun c => Ev.emit c.json) ++ [Ev.emit "[DONE]"]) by
              simp]
        rw [noExecAfter2_split]
        · rw [List.all_append]
          simp [all_not_isExec_emits, isExec]
        · intro e he
          rcases List.mem_cons.mp he with rfl | he2
          · simp
          · rcases List.mem_cons.mp he2 with rfl | he3
            · simp
            · rw [hagent_evs] at he3
              obtain ⟨m, -, hm⟩ := List.mem_map.mp he3
              subst hm
              simp
      cases hexec : (execToolsApi AVAILABLE_TOOLS env.exec ftcs
          (env.messages ++ [assistantMsg ftcs])).2.2 with
      | some e =>
        have h1 : modelCallCount (runGenApi env) = 1 := by
          unfold runGenApi
          rw [mcCount_runGenWrap, bodyApi_exec_err env hne hrec hexec]
          simp only [List.cons_append]
          rw [mcCount_mc_cons, mcCount_append, mcCount_map_emit, hexecAmc]
        refine ⟨by omega, by omega, ?_, hnoexec2, fun h => absurd h hne⟩
        unfold runGenApi
        apply noExecAfter2_runGenWrap_no2
        rw [bodyApi_exec_err env hne hrec hexec]
        intro e' he'
        rcases List.mem_append.mp he' with h1 | h2
        · exact mc1_emits_no2 _ e' h1
        · exact hexecA e' h2
      | none =>
        have h1 : modelCallCount (runGenApi env) = 2 := by
          unfold runGenApi
          rw [mcCount_runGenWrap, bodyApi_ok env hne hrec hexec]
          simp only [List.cons_append]
          rw [mcCount_mc_cons, mcCount_append, mcCount_append, mcCount_append,
              mcCount_map_emit, hexecAmc, mcCount_map_emit]
          simp
        refine ⟨by omega, by omega, ?_, hnoexec2, fun h => absurd h hne⟩
        unfold runGenApi runGenWrap
        rw [bodyApi_ok env hne hrec hexec]
        simp only [excPayloads, List.append_nil, List.cons_append, List.nil_append,
          List.append_assoc, List.singleton_append]
        rw [show (Ev.emit "[STREAM_STARTED]" :: Ev.modelCall 1 ::
              ((env.initialChunks.map fun c => Ev.emit c.json) ++
               ((execToolsApi AVAILABLE_TOOLS env.exec ftcs
                  (env.messages ++ [assistantMsg ftcs])).1 ++
                (Ev.modelCall 2 ::
                  ((env.finalChunks.map fun c => Ev.emit c.json) ++ [Ev.emit "[DONE]"])))))
            = (Ev.emit "[STREAM_STARTED]" :: Ev.modelCall 1 ::
                ((env.initialChunks.map fun c => Ev.emit c.json) ++
                 (execToolsApi AVAILABLE_TOOLS env.exec ftcs
                   (env.messages ++ [assistantMsg ftcs])).1)) ++
              Ev.modelCall 2 ::
                ((env.finalChunks.map fun c => Ev.emit c.json) ++ [Ev.emit "[DONE]"]) by
              simp]
        rw [noExecAfter2_split]
        · rw [List.all_append]
          simp [all_not_isExec_emits, isExec]
        · intro e he
          rcases List.mem_cons.mp he with rfl | he2
          · simp
          · rcases List.mem_cons.mp he2 with rfl | he3
            · simp
            · rcases List.mem_append.mp he3 with h3 | h4
              · obtain ⟨c, -, hc⟩ := List.mem_map.mp h3
                subst hc; simp
              · exact hexecA _ h4

theorem claim2_witness :
    modelCallCount (runGenApi envB) = 1 ∧ modelCallCount (runGenAgent1 envB) = 1 :=
  (claim2_two_roundtrips envB).2.2.2.2 (by decide)

/-! ## C3 -/

/-- Recognizer for a tool-role message carrying a given `tool_call_id`. -/
def isToolMsgFor (i : String) (m : Msg) : Bool :=
  decide (m.role = "tool" ∧ m.tool_call_id = some i)

lemma regMsgs_cons_none {tc : FullTC} (reg : List String)
    (ex : String → String → Except String String) (rest : List FullTC)
    (hname : tc.name = none) :
    regMsgs reg ex (tc :: rest) = regMsgs reg ex rest := by
  unfold regMsgs
  rw [List.filterMap_cons, hname]
  simp

lemma regMsgs_cons_reg {tc : FullTC} {n : String} (reg : List String)
    (ex : String → String → Except String String) (rest : List FullTC)
    (hname : tc.name = some n) (hreg : n ∈ reg) :
    regMsgs reg ex (tc :: rest) =
      toolMsg tc n (okD (ex n tc.args)) :: regMsgs reg ex rest := by
  unfold regMsgs
  rw [List.filterMap_cons, hname]
  simp [hreg]

lemma regMsgs_cons_skip {tc : FullTC} {n : String} (reg : List String)
    (ex : String → String → Except String String) (rest : List FullTC)
    (hname : tc.name = some n) (hreg : n ∉ reg) :
    regMsgs reg ex (tc :: rest) = regMsgs reg ex rest := by
  unfold regMsgs
  rw [List.filterMap_cons, hname]
  simp [hreg]

lemma isToolMsgFor_toolMsg_self (tc : FullTC) (n resp : String) :
    isToolMsgFor tc.id (toolMsg tc n resp) = true := by
  simp [isToolMsgFor, toolMsg]

lemma isToolMsgFor_toolMsg_ne {i : String} (tc : FullTC) (n resp : String)
    (h : tc.id ≠ i) : isToolMsgFor i (toolMsg tc n resp) = false := by
  simp [isToolMsgFor, toolMsg, h]

lemma regMsgs_count_zero (reg : List String)
    (ex : String → String → Except String String) :
    ∀ (ftcs : List FullTC) (i : String), (∀ tc ∈ ftcs, tc.id ≠ i) →
    ((regMsgs reg ex ftcs).filter (isToolMsgFor i)).length = 0 := by
  intro ftcs
  induction ftcs with
  | nil => intro i _; simp [regMsgs]
  | cons tc rest ih =>
    intro i h
    have hid : tc.id ≠ i := h tc (List.mem_cons_self _ _)
    have hrest : ∀ tc' ∈ rest, tc'.id ≠ i :=
      fun tc' h' => h tc' (List.mem_cons_of_mem _ h')
    cases hname : tc.name with
    | none =>
      rw [regMsgs_cons_none reg ex rest hname]
      exact ih i hrest
    | some n =>
      by_cases hreg : n ∈ reg
      · rw [regMsgs_cons_reg reg ex rest hname hreg, List.filter_cons,
            isToolMsgFor_toolMsg_ne tc n _ hid]
        simp only [Bool.false_eq_true, reduceIte]
        exact ih i hrest
      · rw [regMsgs_cons_skip reg ex rest hname hreg]
        exact ih i hrest

lemma regMsgs_count_one (reg : List String)
    (ex : String → String → Except String String) :
    ∀ (ftcs : List FullTC) (tc : FullTC) (n : String),
    tc ∈ ftcs → tc.name = some n → n ∈ reg → (ftcs.map FullTC.id).Nodup →
    ((regMsgs reg ex ftcs).filter (isToolMsgFor tc.id)).length = 1 := by
  intro ftcs
  induction ftcs with
  | nil => intro tc n h; simp at h
  | cons hd rest ih =>
    intro tc n htc hname hreg hnodup
    rw [List.map_cons, List.nodup_cons] at hnodup
    obtain ⟨hnotin, hnodup'⟩ := hnodup
    rcases List.mem_cons.mp htc with rfl | hmem
    · rw [regMsgs_cons_reg reg ex rest hname hreg, List.filter_cons,
          isToolMsgFor_toolMsg_self]
      simp only [reduceIte, List.length_cons]
      rw [regMsgs_count_zero reg ex rest tc.id
          (fun tc' h' hid => hnotin (hid ▸ List.mem_map_of_mem FullTC.id h'))]
    · have hne : hd.id ≠ tc.id :=
        fun h => hnotin (h ▸ List.mem_map_of_mem FullTC.id hmem)
      cases hname2 : hd.name with
      | none =>
        rw [regMsgs_cons_none reg ex rest hname2]
        exact ih tc n hmem hname hreg hnodup'
      | some m =>
        by_cases hreg2 : m ∈ reg
        · rw [regMsgs_cons_reg reg ex rest hname2 hreg2, List.filter_cons,
              isToolMsgFor_toolMsg_ne hd m _ hne]
          simp only [Bool.false_eq_true, reduceIte]
          exact ih tc n hmem hname hreg hnodup'
        · rw [regMsgs_cons_skip reg ex rest hname2 hreg2]
          exact ih tc n hmem hname hreg hnodup'

/-- C3 (amended): with tool calls in the initial response, the message list
handed to the second model call is the prepared messages, the assistant
message recording the calls, and then — for every REGISTERED call, in order —
exactly one tool-role message carrying that call's `tool_call_id`
(`src/api.py` lines 259-277); calls whose name is not a key of
`AVAILABLE_TOOLS` are silently skipped and get no result message. -/
theorem claim3_amended (env : Env) (ftcs : List FullTC)
    (hne : allFrags env.initialChunks ≠ [])
    (hrec : reconstruct (allFrags env.initialChunks) = some ftcs)
    (hok : ∀ tc ∈ ftcs, ∀ n, tc.name = some n → n ∈ AVAILABLE_TOOLS →
           ∃ r, env.exec n tc.args = .ok r)
    (hids : (ftcs.map FullTC.id).Nodup) :
    (bodyApi env).msgs2 =
      some (env.messages ++
        assistantMsg ftcs :: regMsgs AVAILABLE_TOOLS env.exec ftcs) ∧
    (∀ tc ∈ ftcs, ∀ n, tc.name = some n → n ∈ AVAILABLE_TOOLS →
      ((assistantMsg ftcs :: regMsgs AVAILABLE_TOOLS env.exec ftcs).filter
        (isToolMsgFor tc.id)).length = 1) := by
  have hspec := execToolsApi_ok_spec AVAILABLE_TOOLS env.exec ftcs
    (env.messages ++ [assistantMsg ftcs]) hok
  constructor
  · rw [bodyApi_ok env hne hrec (by rw [hspec])]
    show some (execToolsApi AVAILABLE_TOOLS env.exec ftcs
      (env.messages ++ [assistantMsg ftcs])).2.1 = _
    rw [hspec]
    simp
  · intro tc htc n hname hreg
    rw [List.filter_cons,
        show isToolMsgFor tc.id (assistantMsg ftcs) = false by
          simp [isToolMsgFor, assistantMsg]]
    simp only [Bool.false_eq_true, reduceIte]
    exact regMsgs_count_one AVAILABLE_TOOLS env.exec ftcs tc n htc hname hreg hids

theorem claim3_witness :
    (bodyApi envA).msgs2 =
      some (envA.messages ++
        assistantMsg ftcsA :: regMsgs AVAILABLE_TOOLS envA.exec ftcsA) ∧
    ((assistantMsg ftcsA :: regMsgs AVAILABLE_TOOLS envA.exec ftcsA).filter
      (isToolMsgFor "call_1")).length = 1 := by
  have h := claim3_amended envA ftcsA (by decide) (by decide)
    (fun tc _ n _ _ => ⟨"RESP", rfl⟩) (by decide)
  exact ⟨h.1, h.2 ⟨"call_1", some "get_daily_schedule", "\x7b\x7d"⟩ (by decide)
    "get_daily_schedule" rfl (by decide)⟩

/-- C3 counterexample: the initial response issues the function call
`call_7` for `mystery_tool`, a name absent from `AVAILABLE_TOOLS`; the second
model call is made with NO tool-role message at all — the call got no result
message, refuting "for every function call the model issues ... exactly one
tool-role message carrying that call's tool_call_id". -/
theorem claim3_counterexample :
    allFrags envC3.initialChunks = [⟨some "call_7", some "mystery_tool", some ""⟩] ∧
    reconstruct (allFrags envC3.initialChunks) =
      some [⟨"call_7", some "mystery_tool", ""⟩] ∧
    (bodyApi envC3).msgs2 = some [assistantMsg [⟨"call_7", some "mystery_tool", ""⟩]] ∧
    ([assistantMsg [⟨"call_7", some "mystery_tool", ""⟩]].filter
      (isToolMsgFor "call_7")).length = 0 := by
  refine ⟨by decide, by decide, by decide, by decide⟩

/-! ## C4 -/

/-- The serialized chunks of the two upstream responses: the only payloads of
the OpenAI chat-completion streaming wire format available to the generator. -/
def chunkJsons (env : Env) : List String :=
  env.initialChunks.map Chunk.json ++ env.finalChunks.map Chunk.json

lemma payloads_bodyApi_sub (env : Env) :
    ∀ p ∈ payloads (bodyApi env).evs, p ∈ chunkJsons env := by
  intro p hp
  by_cases hne : allFrags env.initialChunks = []
  · rw [bodyApi_no_frags env hne] at hp
    rw [payloads_mc_cons, payloads_map_emit] at hp
    exact List.mem_append_left _ hp
  · cases hrec : reconstruct (allFrags env.initialChunks) with
    | none =>
      rw [bodyApi_recon_fail env hne hrec] at hp
      rw [payloads_mc_cons, payloads_map_emit] at hp
      exact List.mem_append_left _ hp
    | some ftcs =>
      have hE : payloads (execToolsApi AVAILABLE_TOOLS env.exec ftcs
          (env.messages ++ [assistantMsg ftcs])).1 = [] := by
        apply payloads_of_execs
        intro e he
        obtain ⟨m, hm, -⟩ := execToolsApi_events AVAILABLE_TOOLS env.exec ftcs _ _ he
        exact ⟨m, hm⟩
      cases hexec : (execToolsApi AVAILABLE_TOOLS env.exec ftcs
          (env.messages ++ [assistantMsg ftcs])).2.2 with
      | some e =>
        rw [bodyApi_exec_err env hne hrec hexec] at hp
        rw [payloads_append, payloads_mc_cons, payloads_map_emit, hE,
            List.append_nil] at hp
        exact List.mem_append_left _ hp
      | none =>
        rw [bodyApi_ok env hne hrec hexec] at hp
        rw [payloads_append, payloads_append, payloads_append, payloads_mc_cons,
            payloads_map_emit, hE, payloads_mc_cons, payloads_nil,
            List.append_nil, List.append_nil, payloads_map_emit] at hp
        exact hp
  
lemma payloads_bodyAgent1_sub (env : Env) :
    ∀ p ∈ payloads (bodyAgent1 env).evs, p ∈ chunkJsons env := by
  intro p hp
  by_cases hne : allFrags env.initialChunks = []
  · rw [bodyAgent1_no_frags env hne] at hp
    rw [payloads_mc_cons, payloads_map_emit] at hp
    obtain ⟨c, hc, rfl⟩ := List.mem_map.mp hp
    exact List.mem_append_left _
      (List.mem_map_of_mem Chunk.json (List.mem_of_mem_filter hc))
  · cases hrec : reconstruct (allFrags env.initialChunks) with
    | none =>
      rw [bodyAgent1_recon_fail env hne hrec] at hp
      simp [payloads] at hp
    | some ftcs =>
      rw [bodyAgent1_tools env hne hrec] at hp
      rw [execToolsAgent1_evs] at hp
      simp only [List.cons_append] at hp
      rw [payloads_mc_cons, payloads_append, payloads_append,
          payloads_map_execTool, payloads_mc_cons, payloads_nil,
          List.nil_append, List.nil_append, payloads_map_emit] at hp
      exact List.mem_append_right _ hp

/-- C4 (amended): every streamed response is a `data: <payload>` sequence
that opens with the literal `[STREAM_STARTED]` payload and closes with
`[DONE]`; every payload in between is either a serialized chunk of an
upstream model response or a JSON error object `{"error": ...}`.  (The
`[STREAM_STARTED]` prologue and the error object are NOT chunks of the OpenAI
chat-completions streaming format, which refutes the claim as stated.) -/
theorem claim4_amended (env : Env) :
    (∃ mid, payloads (runGenApi env) = "[STREAM_STARTED]" :: mid ++ ["[DONE]"] ∧
       ∀ p ∈ mid, p ∈ chunkJsons env ∨ ∃ e, p = errPayload e) ∧
    (∃ mid, payloads (runGenAgent1 env) = "[STREAM_STARTED]" :: mid ++ ["[DONE]"] ∧
       ∀ p ∈ mid, p ∈ chunkJsons env ∨ ∃ e, p = errPayload e) := by
  constructor
  · refine ⟨payloads (bodyApi env).evs ++ excPayloads (bodyApi env).exc,
      payloads_runGenWrap _, ?_⟩
    intro p hp
    rcases List.mem_append.mp hp with h1 | h2
    · exact Or.inl (payloads_bodyApi_sub env p h1)
    · refine Or.inr ?_
      cases hexc : (bodyApi env).exc with
      | some e =>
        rw [hexc] at h2
        exact ⟨e, List.mem_singleton.mp h2⟩
      | none =>
        rw [hexc] at h2
        simp [excPayloads] at h2
  · refine ⟨payloads (bodyAgent1 env).evs ++ excPayloads (bodyAgent1 env).exc,
      payloads_runGenWrap _, ?_⟩
    intro p hp
    rcases List.mem_append.mp hp with h1 | h2
    · exact Or.inl (payloads_bodyAgent1_sub env p h1)
    · refine Or.inr ?_
      cases hexc : (bodyAgent1 env).exc with
      | some e =>
        rw [hexc] at h2
        exact ⟨e, List.mem_singleton.mp h2⟩
      | none =>
        rw [hexc] at h2
        simp [excPayloads] at h2

/-- C4 counterexample: for a request with no tool calls and no chunks at all,
the emitted payload sequence is `["[STREAM_STARTED]", "[DONE]"]`: the first
payload is the literal `[STREAM_STARTED]`, which is not `[DONE]` and not a
serialized chunk of either upstream response (both are empty here) — a
payload outside the OpenAI chat-completions streaming wire format. -/
theorem claim4_counterexample :
    payloads (runGenApi envB) = ["[STREAM_STARTED]", "[DONE]"] ∧
    payloads (runGenAgent1 envB) = ["[STREAM_STARTED]", "[DONE]"] ∧
    chunkJsons envB = [] ∧
    "[STREAM_STARTED]" ∉ chunkJsons envB ∧
    "[STREAM_STARTED]" ≠ "[DONE]" := by
  refine ⟨by decide, by decide, by decide, by decide, by decide⟩

end RekiBets
